import Mathlib

/-!
# SteamPP libpurple plugin (steampurple.cpp)

A shallow embedding of the plugin glue in `steampurple.cpp`: the read watcher that
cuts the socket stream into frames, the logon / Steam Guard sequencing, and the
handlers that reconcile relationship and chat events against the host's buddy list
and conversations.

The plugin is glue between two collaborators that are not part of the file:

* the protocol session `Steam::SteamClient` (steam++.h).  Requests sent to it are
  recorded in the call log; the lengths it returns from `connected()` and
  `readable()` are parameters of the embedding;
* the host library libpurple 2.x.  The parts of its state that the plugin reads back
  (buddy list, chat conversations, display name) are modelled as data, following the
  behaviour of libpurple's `blist.c`, `conversation.c` and `server.c`; every
  state-changing host call is also recorded in the call log.

Assertions are modelled as enabled (the build does not define NDEBUG): a failed
`assert` ends the run with a `Fault`.
-/

namespace SteamPP

/-! ## Identifiers and enumerations (steam++.h) -/

/-- An `unsigned char` of the socket stream. -/
abbrev Byte := Nat

/-- Modelled from the spec: `struct SteamID` is declared in steam++.h, which is not
among the sources.  It is the 64-bit identifier of a user or chat room ("a 64-bit
opaque account/room identifier ... high bits encode the kind").  The embedding takes
the layout of Steam's identifiers: a union of the 64-bit value with the bit fields
`ID : 32`, `instance : 20`, `type : 4`, `universe : 8` (least significant first).
The plugin reads `ID` (as libpurple's chat id) and `type`. -/
structure SteamID where
  steamID64 : Nat
deriving DecidableEq, Repr

/-- The bit field `ID` of a `SteamID`: its low 32 bits. -/
def SteamID.ID (s : SteamID) : Nat := s.steamID64 % 2 ^ 32

/-- The bit field `type` of a `SteamID`: bits 52 to 55. -/
def SteamID.type (s : SteamID) : Nat := (s.steamID64 / 2 ^ 52) % 2 ^ 4

/-- Modelled from the spec: the enumerator `EAccountType::Chat` of steam++.h (the
kind carried by chat-room identifiers). -/
def EAccountType_Chat : Nat := 8

/-- The rendering `g_strdup_printf("%" G_GUINT64_FORMAT, steamID)`: the decimal
digits of the 64-bit value. -/
def steamID_string (s : SteamID) : String := toString s.steamID64

/-- Modelled from the spec: `enum class EResult` of steam++.h, reduced to the
enumerators that `onLogOn` names; `other` stands for every remaining code. -/
inductive EResult where
  | OK
  | AccountLogonDenied
  | InvalidPassword
  | ServiceUnavailable
  | TryAnotherCM
  | other (code : Int)
deriving DecidableEq, Repr

/-- Modelled from the spec: `enum class EPersonaState` of steam++.h. -/
inductive EPersonaState where
  | Offline
  | Online
  | Busy
  | Away
  | Snooze
  | LookingToTrade
  | LookingToPlay
deriving DecidableEq, Repr

/-- Modelled from the spec: `enum class EFriendRelationship` of steam++.h, reduced to
the enumerators that `onRelationships` names; `other` stands for every remaining
code (the `default:` label). -/
inductive EFriendRelationship where
  | None
  | RequestRecipient
  | Friend
  | RequestInitiator
  | other (code : Int)
deriving DecidableEq, Repr

/-- Modelled from the spec: `enum class EChatRoomEnterResponse` of steam++.h;
`onChatEnter` only tests for `Success`. -/
inductive EChatRoomEnterResponse where
  | Success
  | other (code : Int)
deriving DecidableEq, Repr

/-- Modelled from the spec: `enum class EChatMemberStateChange` of steam++.h;
`onChatStateChange` only tests for `Entered`. -/
inductive EChatMemberStateChange where
  | Entered
  | Left
  | Disconnected
  | Kicked
  | Banned
  | other (code : Int)
deriving DecidableEq, Repr

/-! ## GLib: `g_ascii_strtoull` in base 10 -/

/-- The characters accepted by `g_ascii_isspace`. -/
def g_ascii_isspace (c : Char) : Bool :=
  c = ' ' || c = '\t' || c = '\n' || c = '\r' || c = Char.ofNat 11 || c = Char.ofNat 12

/-- The digit loop of `g_ascii_strtoull`: accumulates decimal digits until the first
other character; the flag records that a digit was seen, and an accumulator beyond
`G_MAXUINT64` records the overflow. -/
def parse_digits : List Char → Nat → Bool → Nat × Bool
  | [], acc, seen => (acc, seen)
  | c :: cs, acc, seen =>
    if c.isDigit then parse_digits cs (acc * 10 + (c.toNat - 48)) true else (acc, seen)

/-- The call `g_ascii_strtoull(s, NULL, 10)` on a possibly NULL string: leading
white space is skipped, one sign is accepted, the digits are read; without digits
the result is 0, on overflow it is `G_MAXUINT64`, and a minus sign negates the
result modulo 2^64. -/
def g_ascii_strtoull (s : Option String) : Nat :=
  match s with
  | none => 0
  | some str =>
    let cs := str.data.dropWhile g_ascii_isspace
    let negative := cs.head? = some '-'
    let body := if cs.head? = some '-' ∨ cs.head? = some '+' then cs.tail else cs
    let r := parse_digits body 0 false
    if r.2 = false then 0
    else
      let v := if r.1 < 2 ^ 64 then r.1 else 2 ^ 64 - 1
      if negative then (2 ^ 64 - v) % 2 ^ 64 else v

/-! ## libpurple: the buddy list (blist.c) -/

/-- The key of libpurple's `buddies` hash table: account, buddy name and group. -/
structure BuddyKey where
  account : Nat
  name : String
  group : String
deriving DecidableEq, Repr

/-- A buddy node linked into the buddy-list tree.  `ptr` is the identity of the node
(its address). -/
structure PurpleBuddy where
  ptr : Nat
  account : Nat
  name : String
  group : String
deriving DecidableEq, Repr

/-- The hash-table key of a linked buddy node. -/
def PurpleBuddy.key (b : PurpleBuddy) : BuddyKey := ⟨b.account, b.name, b.group⟩

/-- A `PurpleGroup*`: either a group node of the buddy list, or a group that
`purple_group_new` has allocated and that is not linked into the list yet. -/
inductive PurpleGroup where
  | listed (name : String)
  | detached (name : String)
deriving DecidableEq, Repr

/-- The name of a group. -/
def PurpleGroup.name : PurpleGroup → String
  | .listed n => n
  | .detached n => n

/-- The host's buddy list: the root-level group nodes in order, the buddy nodes
linked below them (each in a contact of its own, in linking order), the `buddies`
hash table from keys to node identities, and the next unused node identity. -/
structure BuddyList where
  groups : List String
  buddies : List PurpleBuddy
  index : List (BuddyKey × Nat)
  next : Nat
deriving DecidableEq, Repr

/-- The call `purple_find_group(name)`: the listed group of that name; NULL for a
NULL name or when no such group is listed. -/
def purple_find_group (bl : BuddyList) (name : Option String) : Option PurpleGroup :=
  match name with
  | none => none
  | some n => if n ∈ bl.groups then some (.listed n) else none

/-- The call `purple_group_new(name)`: the listed group of that name when there is
one, otherwise a newly allocated group that is not linked into the list. -/
def purple_group_new (bl : BuddyList) (name : String) : PurpleGroup :=
  if name ∈ bl.groups then .listed name else .detached name

/-- The call `purple_find_buddy_in_group(account, name, group)`: one lookup in the
`buddies` hash table.  The key holds the group pointer, so a NULL group or a group
that is not linked into the list matches no entry. -/
def purple_find_buddy_in_group (bl : BuddyList) (account : Nat) (name : String)
    (group : Option PurpleGroup) : Option Nat :=
  match group with
  | some (.listed g) => bl.index.lookup ⟨account, name, g⟩
  | _ => none

/-- The call `purple_find_buddy(account, name)`: walks the root-level groups in order,
skips the groups without children, and returns the first hash-table hit. -/
def purple_find_buddy (bl : BuddyList) (account : Nat) (name : String) : Option Nat :=
  bl.groups.findSome? fun g =>
    if bl.buddies.any (fun b => b.group = g) then bl.index.lookup ⟨account, name, g⟩ else none

/-- The call `purple_blist_get_buddies()`: libpurple builds the list by walking its
`buddies` hash table, so it holds one node per key; a linked node whose key has
been taken over by a later node is not in it. -/
def purple_blist_get_buddies (bl : BuddyList) : List Nat :=
  bl.index.map Prod.snd

/-- The group that `purple_blist_add_buddy` links a buddy into when no contact and
no sibling node are given: the group passed, or the group "Buddies" for NULL. -/
def add_buddy_group (group : Option PurpleGroup) : String :=
  match group with
  | none => "Buddies"
  | some gr => gr.name

/-- The calls `purple_blist_add_buddy(purple_buddy_new(account, name, NULL), NULL,
group, NULL)`: a new node is allocated and linked at the end of the group (the group
"Buddies" for a NULL group), the group is linked at the end of the root level when
no group of that name is listed, and the hash table entry of the key is replaced by
the new node.  A node that was linked under the same key before stays in the tree. -/
def purple_blist_add_buddy (bl : BuddyList) (account : Nat) (name : String)
    (group : Option PurpleGroup) : BuddyList :=
  let g := add_buddy_group group
  { groups := if g ∈ bl.groups then bl.groups else bl.groups ++ [g]
    buddies := bl.buddies ++ [⟨bl.next, account, name, g⟩]
    index := (⟨account, name, g⟩, bl.next) :: bl.index.filter (fun e => e.1 ≠ ⟨account, name, g⟩)
    next := bl.next + 1 }

/-- The call `purple_blist_remove_buddy(buddy)`: nothing for NULL; otherwise the node
is unlinked (its emptied contact with it), the hash-table entry of the node's key is
removed, and the node is freed. -/
def purple_blist_remove_buddy (bl : BuddyList) (buddy : Option Nat) : BuddyList :=
  match buddy with
  | none => bl
  | some p =>
    match bl.buddies.find? (fun b => b.ptr = p) with
    | none => bl
    | some b =>
      { bl with
        buddies := bl.buddies.filter (fun x => x.ptr ≠ p)
        index := bl.index.filter (fun e => e.1 ≠ b.key) }

/-- The call `purple_blist_remove_group(group)`: nothing for NULL, and nothing for a
group that still has a child ("you can't remove a non-empty group"); otherwise the
group is unlinked from the root level. -/
def purple_blist_remove_group (bl : BuddyList) (group : Option PurpleGroup) : BuddyList :=
  match group with
  | none => bl
  | some g =>
    if bl.buddies.any (fun b => b.group = g.name) then bl
    else { bl with groups := bl.groups.filter (fun n => n ≠ g.name) }

/-! ## libpurple: chat conversations (conversation.c, server.c) -/

/-- A chat conversation: its identity, its name, its title, the chat id, the list
`in_room` of chat-buddy names (most recently added first) and the `left` flag. -/
structure PurpleConversation where
  ptr : Nat
  name : String
  title : String
  id : Nat
  in_room : List String
  left : Bool
deriving DecidableEq, Repr

/-- The chat conversations of the host: the list `purple_get_chats()` (most recently
created first), the connection's `buddy_chats` (identities, in joining order) and
the next unused conversation identity. -/
structure Chats where
  chats : List PurpleConversation
  buddy_chats : List Nat
  next : Nat
deriving DecidableEq, Repr

/-- Applies `f` to the conversation with identity `p`. -/
def Chats.update (cs : Chats) (p : Nat) (f : PurpleConversation → PurpleConversation) : Chats :=
  { cs with chats := cs.chats.map fun c => if c.ptr = p then f c else c }

/-- The call `purple_find_chat(gc, id)`: the first chat conversation with that id.
The id is the room's 32-bit `ID`; its conversion to libpurple's `int` is one-to-one,
so ids are compared as the 32-bit values. -/
def purple_find_chat (cs : Chats) (id : Nat) : Option PurpleConversation :=
  cs.chats.find? fun c => c.id = id

/-- The call `purple_find_conversation_with_account(PURPLE_CONV_TYPE_CHAT, name,
account)`: the first chat conversation registered under the name.  It is the lookup
that `purple_conversation_new` makes inside `serv_got_joined_chat`; the plugin names
a room's conversation by the decimal rendering of the room's 64-bit identifier. -/
def purple_find_conversation_with_account (cs : Chats) (name : String) :
    Option PurpleConversation :=
  cs.chats.find? fun c => c.name = name

/-- The call `serv_got_joined_chat(gc, id, name)`.  `purple_conversation_new` reuses
the chat conversation registered under the name when it has been left (clearing its
users and its `left` flag) and otherwise creates a conversation at the head of the
chat list; the conversation is appended to `buddy_chats` unless it is there, and its
id is set.  Returns the conversation's identity. -/
def serv_got_joined_chat (cs : Chats) (id : Nat) (name : String) : Nat × Chats :=
  let reused := (cs.chats.find? fun c => c.name = name).filter fun c => c.left
  let p := match reused with
    | some c => c.ptr
    | none => cs.next
  let chats := match reused with
    | some c => cs.chats.map fun x =>
        if x.ptr = c.ptr then { x with in_room := [], left := false, id := id } else x
    | none => ⟨cs.next, name, name, id, [], false⟩ :: cs.chats
  (p, { chats := chats
        buddy_chats := if p ∈ cs.buddy_chats then cs.buddy_chats else cs.buddy_chats ++ [p]
        next := match reused with
          | some _ => cs.next
          | none => cs.next + 1 })

/-- The call `purple_conversation_set_title(conv, title)`. -/
def purple_conversation_set_title (cs : Chats) (conv : Nat) (title : String) : Chats :=
  cs.update conv fun c => { c with title := title }

/-- The call `purple_conv_chat_add_user(chat, user, NULL, flags, new_arrival)`: nothing
for a NULL chat; otherwise a new chat buddy is put at the head of `in_room`. -/
def purple_conv_chat_add_user (cs : Chats) (chat : Option Nat) (user : String) : Chats :=
  match chat with
  | none => cs
  | some p => cs.update p fun c => { c with in_room := user :: c.in_room }

/-- The call `purple_conv_chat_remove_user(chat, user, NULL)`: nothing for a NULL
chat; otherwise the chat buddy found under the name, if any, leaves `in_room`. -/
def purple_conv_chat_remove_user (cs : Chats) (chat : Option Nat) (user : String) : Chats :=
  match chat with
  | none => cs
  | some p => cs.update p fun c => { c with in_room := c.in_room.erase user }

/-- The call `serv_got_chat_left(gc, id)`: the first conversation of `buddy_chats`
with that id leaves `buddy_chats` and is marked as left; nothing when there is
none. -/
def serv_got_chat_left (cs : Chats) (id : Nat) : Chats :=
  match cs.buddy_chats.find? fun p => (cs.chats.find? fun c => c.ptr = p).any fun c => c.id = id with
  | none => cs
  | some p =>
    { (cs.update p fun c => { c with left := true }) with
      buddy_chats := cs.buddy_chats.erase p }

/-! ## The plugin state and the call log -/

/-- The closure stored in `client.onHandshake`: the one installed by `steam_login`,
or the one installed by `steam_set_steam_guard_token_cb`, which captures the Steam
Guard code. -/
inductive OnHandshake where
  | login
  | guard (token : String)
deriving DecidableEq, Repr

/-- The protocol session `SteamClient` as the plugin sees it: its internal state,
of a type the embedding leaves open, and the `onHandshake` callback, the only
callback that is reassigned after `steam_login`. -/
structure SteamClient (κ : Type) where
  session : κ
  onHandshake : OnHandshake
deriving DecidableEq, Repr

/-- The record `struct SteamPurple`. -/
structure SteamPurple (κ : Type) where
  client : SteamClient κ
  fd : Int
  read_buffer : List Byte
  write_buffer : List Byte
  read_offset : Nat
  watcher : Nat
  timer : Nat
deriving DecidableEq, Repr

/-- The reasons passed to `purple_connection_error_reason`. -/
inductive PurpleConnectionError where
  | NETWORK_ERROR
  | AUTHENTICATION_FAILED
  | OTHER_ERROR
deriving DecidableEq, Repr

/-- The status primitives chosen by `onUserInfo`. -/
inductive PurpleStatusPrimitive where
  | OFFLINE
  | AVAILABLE
  | UNAVAILABLE
  | AWAY
  | EXTENDED_AWAY
deriving DecidableEq, Repr

/-- The state of the `PurpleConnection`. -/
inductive PurpleConnectionState where
  | DISCONNECTED
  | CONNECTED
  | CONNECTING
deriving DecidableEq, Repr

/-- The calls the plugin makes that leave it: requests to the protocol session,
system calls on the socket, and state-changing calls into libpurple.  Pointer
arguments are recorded by the identity or name they resolve to. -/
inductive Call where
  | connected
  | readable (frame : List Byte)
  | LogOn (username password : String) (hash : Option (List Byte)) (code : Option String)
  | SetPersonaState (state : EPersonaState)
  | RequestUserInfo (users : List SteamID)
  | LeaveChat (room : Nat)
  | close (fd : Int)
  | purple_proxy_connect (endpoint : Nat)
  | purple_input_add (fd : Int)
  | purple_input_remove (handle : Nat)
  | purple_request_input (primary : String)
  | purple_connection_set_state (state : PurpleConnectionState)
  | purple_connection_set_display_name (name : String)
  | purple_connection_error_reason (reason : PurpleConnectionError) (text : String)
  | purple_account_set_string (name : String) (hash : List Byte)
  | purple_account_set_alias (name : String)
  | serv_got_alias (who : String) (name : String)
  | purple_prpl_got_user_status (who : String) (prim : PurpleStatusPrimitive)
  | purple_blist_add_buddy (name : String) (group : Option String)
  | purple_blist_remove_buddy (buddy : Option Nat)
  | purple_blist_remove_group (group : Option String)
  | serv_got_joined_chat (id : Nat) (name : String)
  | purple_conversation_set_title (conv : Nat) (title : String)
  | purple_conv_chat_add_user (chat : Option Nat) (user : String) (new_arrival : Bool)
  | purple_conv_chat_remove_user (chat : Option Nat) (user : String)
  | serv_got_chat_left (id : Nat)
  | serv_got_chat_in (id : Nat) (who : String) (message : String)
  | serv_got_im (who : String) (message : String)
  | serv_got_typing (who : String)
deriving DecidableEq, Repr

/-- The `PurpleAccount` of the session: its identity, the user name and password,
and the bytes kept (base64-encoded) under the setting "sentry_hash". -/
structure PurpleAccount where
  id : Nat
  username : String
  password : String
  sentry_hash : Option (List Byte)
deriving DecidableEq, Repr

/-- The `PurpleConnection` of the session. -/
structure PurpleConnection where
  state : PurpleConnectionState
  display_name : Option String
deriving DecidableEq, Repr

/-- Everything the plugin code reads or changes: the `SteamPurple` record behind
`pc->proto_data`, the account and connection, the host's buddy list and chats, the
open socket descriptors, the read watchers registered with the event loop (handle
and descriptor) with the next unused handle, and the log of calls made so far. -/
structure World (κ : Type) where
  steam : SteamPurple κ
  account : PurpleAccount
  pc : PurpleConnection
  blist : BuddyList
  chats : Chats
  sockets : List Int
  inputs : List (Nat × Int)
  next_input : Nat
  log : List Call
deriving DecidableEq, Repr

/-- A failed `assert`, which aborts the process. -/
inductive Fault where
  | assertion (expr : String)
deriving DecidableEq, Repr

variable {κ : Type}

/-- Records a call in the log. -/
def World.call (w : World κ) (c : Call) : World κ :=
  { w with log := w.log ++ [c] }

/-- The plugin calling `purple_blist_add_buddy(purple_buddy_new(account, name, NULL),
NULL, group, NULL)`. -/
def World.blist_add_buddy (w : World κ) (name : String) (group : Option PurpleGroup) : World κ :=
  { w with
    blist := purple_blist_add_buddy w.blist w.account.id name group
    log := w.log ++ [.purple_blist_add_buddy name (group.map PurpleGroup.name)] }

/-- The plugin calling `purple_blist_remove_buddy(buddy)`. -/
def World.blist_remove_buddy (w : World κ) (buddy : Option Nat) : World κ :=
  { w with
    blist := purple_blist_remove_buddy w.blist buddy
    log := w.log ++ [.purple_blist_remove_buddy buddy] }

/-- The plugin calling `purple_blist_remove_group(group)`. -/
def World.blist_remove_group (w : World κ) (group : Option PurpleGroup) : World κ :=
  { w with
    blist := purple_blist_remove_group w.blist group
    log := w.log ++ [.purple_blist_remove_group (group.map PurpleGroup.name)] }

/-- The plugin calling `purple_conv_chat_add_user(chat, user, NULL,
PURPLE_CBFLAGS_NONE, new_arrival)`. -/
def World.chat_add_user (w : World κ) (chat : Option Nat) (user : String)
    (new_arrival : Bool) : World κ :=
  { w with
    chats := purple_conv_chat_add_user w.chats chat user
    log := w.log ++ [.purple_conv_chat_add_user chat user new_arrival] }

/-- The plugin calling `purple_conv_chat_remove_user(chat, user, NULL)`. -/
def World.chat_remove_user (w : World κ) (chat : Option Nat) (user : String) : World κ :=
  { w with
    chats := purple_conv_chat_remove_user w.chats chat user
    log := w.log ++ [.purple_conv_chat_remove_user chat user] }

/-- The plugin calling `serv_got_chat_left(pc, id)`. -/
def World.got_chat_left (w : World κ) (id : Nat) : World κ :=
  { w with
    chats := serv_got_chat_left w.chats id
    log := w.log ++ [.serv_got_chat_left id] }

/-- The plugin calling `purple_connection_set_state(pc, state)`. -/
def World.connection_set_state (w : World κ) (state : PurpleConnectionState) : World κ :=
  { w with
    pc := { w.pc with state := state }
    log := w.log ++ [Call.purple_connection_set_state state] }

/-- The plugin calling `purple_connection_set_display_name(pc, name)`. -/
def World.connection_set_display_name (w : World κ) (name : String) : World κ :=
  { w with
    pc := { w.pc with display_name := some name }
    log := w.log ++ [Call.purple_connection_set_display_name name] }

/-- The plugin calling `close(fd)`: the descriptor is no longer open. -/
def World.close (w : World κ) (fd : Int) : World κ :=
  { w with
    sockets := w.sockets.filter (fun s => s ≠ fd)
    log := w.log ++ [Call.close fd] }

/-- The plugin calling `purple_input_remove(handle)`: the watcher is no longer
registered with the event loop. -/
def World.input_remove (w : World κ) (handle : Nat) : World κ :=
  { w with
    inputs := w.inputs.filter (fun i => i.1 ≠ handle)
    log := w.log ++ [Call.purple_input_remove handle] }

/-! ## The frame pump: `steam_connect` and its two callbacks -/

/-- The call `v.resize(n)` on a `std::vector<unsigned char>`: the first `n` elements
are kept and the vector is padded with zero bytes up to length `n`. -/
def resize (v : List Byte) (n : Nat) : List Byte :=
  v.take n ++ List.replicate (n - v.length) 0

/-- What one `read` on the socket finds: an error (the call returns -1), or the bytes
the stream has ready (none at end of stream). -/
inductive ReadResult where
  | error
  | bytes (data : List Byte)
deriving DecidableEq, Repr

/-- The function `steam_connect`: it picks an endpoint (`rand()` is the parameter
`endpoint`) and starts `purple_proxy_connect`; the connection callback runs later,
from the event loop (`proxy_connected`). -/
def steam_connect (w : World κ) (endpoint : Nat) : World κ :=
  w.call (.purple_proxy_connect endpoint)

/-- The connection callback passed to `purple_proxy_connect` (the outer lambda of
`steam_connect`), run with the descriptor `source` of the new socket.  The parameter
`connected` is the net effect of `steam->client.connected()`, which returns the
length of the first frame. -/
def proxy_connected (connected : World κ → World κ × Nat) (w : World κ) (source : Int) :
    Except Fault (World κ) :=
  if source = -1 then .error (.assertion "source != -1")
  else
    let w1 := { w with
      steam := { w.steam with fd := source }
      sockets := source :: w.sockets }
    let r := connected (w1.call .connected)
    let w2 := r.1
    .ok { w2 with
      steam := { w2.steam with
        read_buffer := resize w2.steam.read_buffer r.2
        watcher := w2.next_input }
      inputs := w2.inputs ++ [(w2.next_input, source)]
      next_input := w2.next_input + 1
      log := w2.log ++ [.purple_input_add source] }

/-- The effect of `read` storing the bytes `got` at `&read_buffer[read_offset]`,
followed by `steam->read_offset += len`. -/
def World.store (w : World κ) (got : List Byte) : World κ :=
  { w with
    steam := { w.steam with
      read_buffer := w.steam.read_buffer.take w.steam.read_offset ++ got ++
        w.steam.read_buffer.drop (w.steam.read_offset + got.length)
      read_offset := w.steam.read_offset + got.length } }

/-- The body of `if (steam->read_offset == steam->read_buffer.size())`: the buffer is
handed to `steam->client.readable`, whose net effect is the parameter `readable` and
which returns the length of the next frame; then the offset is reset and the
buffer resized. -/
def frame_complete (readable : World κ → List Byte → World κ × Nat) (w : World κ) : World κ :=
  let res := readable (w.call (.readable w.steam.read_buffer)) w.steam.read_buffer
  { res.1 with
    steam := { res.1.steam with
      read_offset := 0
      read_buffer := resize res.1.steam.read_buffer res.2 } }

/-- The read watcher registered with `purple_input_add` (the inner lambda of
`steam_connect`), run once per readability signal.  `read` is asked for the
outstanding `read_buffer.size() - read_offset` bytes, takes at most that many of the
bytes the stream has ready, and stores them at `read_offset`; it returns their
number, or -1 on an error.  `assert(len > 0)` follows; when the buffer is full the
frame is delivered. -/
def readWatcher (readable : World κ → List Byte → World κ × Nat) (w : World κ)
    (r : ReadResult) : Except Fault (World κ) :=
  match r with
  | .error => .error (.assertion "len > 0")
  | .bytes data =>
    let got := data.take (w.steam.read_buffer.length - w.steam.read_offset)
    if got.length = 0 then .error (.assertion "len > 0")
    else
      let w1 := w.store got
      if w1.steam.read_offset = w1.steam.read_buffer.length then
        .ok (frame_complete readable w1)
      else .ok w1

/-- Runs the read watcher once per read, in order, stopping at the first fault. -/
def runReads (readable : World κ → List Byte → World κ × Nat) (w : World κ) :
    List ReadResult → Except Fault (World κ)
  | [] => .ok w
  | r :: rs =>
    match readWatcher readable w r with
    | .error e => .error e
    | .ok w1 => runReads readable w1 rs

/-! ## Logon sequencing -/

/-- The function `steam_set_steam_guard_token_cb`, the OK callback of the Steam Guard
prompt: it starts a new connection and replaces `client.onHandshake` by a closure
that holds the code. -/
def steam_set_steam_guard_token_cb (w : World κ) (endpoint : Nat)
    (steam_guard_token : String) : World κ :=
  let w1 := steam_connect w endpoint
  { w1 with
    steam := { w1.steam with
      client := { w1.steam.client with onHandshake := .guard steam_guard_token } } }

/-- The callback `client.onHandshake`, run by the protocol session when the
low-level handshake is done. -/
def onHandshake (w : World κ) : World κ :=
  match w.steam.client.onHandshake with
  | .login =>
    match w.account.sentry_hash with
    | some hash => w.call (.LogOn w.account.username w.account.password (some hash) none)
    | none => w.call (.LogOn w.account.username w.account.password none none)
  | .guard token => w.call (.LogOn w.account.username w.account.password none (some token))

/-- The callback `client.onLogOn`. -/
def onLogOn (w : World κ) (result : EResult) (steamID : SteamID) : World κ :=
  let steamID_string := steamID_string steamID
  match result with
  | .OK =>
    ((w.call (.SetPersonaState .Online)).connection_set_state .CONNECTED).connection_set_display_name
      steamID_string
  | .AccountLogonDenied =>
    let w1 := w.call (.purple_request_input "Set your Steam Guard Code")
    let w2 := w1.close w1.steam.fd
    w2.input_remove w2.steam.watcher
  | .InvalidPassword =>
    w.call (.purple_connection_error_reason .AUTHENTICATION_FAILED "Invalid password")
  | .ServiceUnavailable =>
    w.call (.purple_connection_error_reason .NETWORK_ERROR "Steam is down")
  | .TryAnotherCM =>
    w.call (.purple_connection_error_reason .NETWORK_ERROR "This server is down")
  | .other _ =>
    w.call (.purple_connection_error_reason .OTHER_ERROR "Unknown error")

/-- The callback `client.onSentry`: the hash is stored, base64-encoded, under the
account setting "sentry_hash". -/
def onSentry (w : World κ) (hash : List Byte) : World κ :=
  { w with
    account := { w.account with sentry_hash := some hash }
    log := w.log ++ [.purple_account_set_string "sentry_hash" hash] }

/-! ## Roster and chat reconciliation -/

/-- The status primitive that `onUserInfo` picks for a persona state. -/
def status_primitive : EPersonaState → PurpleStatusPrimitive
  | .Offline => .OFFLINE
  | .Online => .AVAILABLE
  | .LookingToTrade => .AVAILABLE
  | .LookingToPlay => .AVAILABLE
  | .Busy => .UNAVAILABLE
  | .Away => .AWAY
  | .Snooze => .EXTENDED_AWAY

/-- The callback `client.onUserInfo`; `source`, `name` and `state` are the optional
(possibly NULL) arguments. -/
def onUserInfo (w : World κ) (user : SteamID) (source : Option SteamID)
    (name : Option String) (state : Option EPersonaState) : World κ :=
  let user_string := steamID_string user
  let w1 :=
    match source with
    | none => w
    | some src =>
      if src.type = EAccountType_Chat then
        let group := purple_group_new w.blist (steamID_string src)
        if purple_find_buddy_in_group w.blist w.account.id user_string (some group) = none then
          w.blist_add_buddy user_string (some group)
        else w
      else w
  let w2 :=
    match name with
    | none => w1
    | some n =>
      let w1a := w1.call (.serv_got_alias user_string n)
      if user.steamID64 = g_ascii_strtoull w1a.pc.display_name then
        w1a.call (.purple_account_set_alias n)
      else w1a
  match state with
  | none => w2
  | some st => w2.call (.purple_prpl_got_user_status user_string (status_primitive st))

/-- The callback `client.onChatEnter`; `members` holds the `steamID` fields of the
`member_count` entries of `members[]`, which the loop walks from the last entry to
the first. -/
def onChatEnter (w : World κ) (room : SteamID) (response : EChatRoomEnterResponse)
    (name : String) (members : List SteamID) : World κ :=
  match response with
  | .Success =>
    let room_string := steamID_string room
    let joined := serv_got_joined_chat w.chats room.ID room_string
    let convo := joined.1
    let w1 := { w with
      chats := purple_conversation_set_title joined.2 convo name
      log := w.log ++ [Call.serv_got_joined_chat room.ID room_string,
        Call.purple_conversation_set_title convo name] }
    members.reverse.foldl
      (fun acc member => acc.chat_add_user (some convo) (steamID_string member) false) w1
  | .other _ => w

/-- The callback `client.onChatStateChange`. -/
def onChatStateChange (w : World κ) (room _acted_by acted_on : SteamID)
    (state_change : EChatMemberStateChange) : World κ :=
  let convo := purple_find_chat w.chats room.ID
  let chat := convo.map fun c => c.ptr
  let acted_on_string := steamID_string acted_on
  if state_change = .Entered then
    w.chat_add_user chat acted_on_string true
  else if acted_on.steamID64 = g_ascii_strtoull w.pc.display_name then
    w.got_chat_left room.ID
  else
    let w1 := w.chat_remove_user chat acted_on_string
    let group_buddy := purple_find_buddy_in_group w1.blist w1.account.id acted_on_string
      (purple_find_group w1.blist (convo.map fun c => c.name))
    w1.blist_remove_buddy group_buddy

/-- The callback `client.onChatMsg`. -/
def onChatMsg (w : World κ) (room chatter : SteamID) (message : String) : World κ :=
  w.call (.serv_got_chat_in room.ID (steamID_string chatter) message)

/-- The callback `client.onPrivateMsg`. -/
def onPrivateMsg (w : World κ) (user : SteamID) (message : String) : World κ :=
  w.call (.serv_got_im (steamID_string user) message)

/-- The callback `client.onTyping`. -/
def onTyping (w : World κ) (user : SteamID) : World κ :=
  w.call (.serv_got_typing (steamID_string user))

/-- The "clear list" block of `onRelationships`: every buddy returned by
`purple_blist_get_buddies()` is removed. -/
def clear_list (w : World κ) : World κ :=
  (purple_blist_get_buddies w.blist).foldl (fun acc b => acc.blist_remove_buddy (some b)) w

/-- The body of the `while (count--)` loop of `onRelationships` for one entry
`(users[count], relationships[count])`. -/
def apply_relationship (w : World κ) (entry : SteamID × EFriendRelationship) : World κ :=
  let user_string := steamID_string entry.1
  match entry.2 with
  | .None => w.blist_remove_buddy (purple_find_buddy w.blist w.account.id user_string)
  | .RequestRecipient => w
  | .Friend => w.blist_add_buddy user_string none
  | .RequestInitiator => w
  | .other _ => w

/-- The callback `client.onRelationships`.  The arrays `users[]` and
`relationships[]` share the one `count`; `entries` lists the pairs
`(users[i], relationships[i])` for `i < count`.  The loop walks them from the last
to the first. -/
def onRelationships (w : World κ) (incremental : Bool)
    (entries : List (SteamID × EFriendRelationship)) : World κ :=
  let w1 :=
    if incremental then w
    else (clear_list w).call (.RequestUserInfo (entries.map Prod.fst))
  entries.reverse.foldl apply_relationship w1

/-- The first part of `steam_chat_leave`, up to and including the `g_list_foreach`
over the chat's users: the leave request is sent and, for every chat buddy, the
buddy found under its name in the group named like the conversation is removed. -/
def steam_chat_leave_aliases (w : World κ) (id : Nat) : World κ :=
  let chat := purple_find_chat w.chats id
  let chat_name := chat.map fun c => c.name
  let w1 := w.call (.LeaveChat (g_ascii_strtoull chat_name))
  let users := match chat with
    | none => []
    | some c => c.in_room
  users.foldl
    (fun acc chat_buddy =>
      acc.blist_remove_buddy
        (purple_find_buddy_in_group acc.blist acc.account.id chat_buddy
          (purple_find_group acc.blist chat_name)))
    w1

/-- The function `steam_chat_leave`: after the loop over the chat's users, the group
named like the conversation is removed. -/
def steam_chat_leave (w : World κ) (id : Nat) : World κ :=
  let chat_name := (purple_find_chat w.chats id).map fun c => c.name
  let w1 := steam_chat_leave_aliases w id
  w1.blist_remove_group (purple_find_group w1.blist chat_name)

/-- The function `steam_login`: a value-initialised `SteamPurple` record is created
around a new protocol session, the callbacks are installed, and `steam_connect` is
called. -/
def steam_login (session : κ) (account : PurpleAccount) (pc : PurpleConnection)
    (blist : BuddyList) (chats : Chats) (endpoint : Nat) : World κ :=
  steam_connect
    { steam := ⟨⟨session, .login⟩, 0, [], [], 0, 0, 0⟩
      account := account
      pc := pc
      blist := blist
      chats := chats
      sockets := []
      inputs := []
      next_input := 1
      log := [] }
    endpoint

/-- One pass of the loop of `steam_chat_leave`, seen on the buddy list: the buddy found
under the chat buddy's name in the group `g` is removed. -/
def remove_alias (account : Nat) (g : String) (bl : BuddyList) (chat_buddy : String) : BuddyList :=
  purple_blist_remove_buddy bl
    (purple_find_buddy_in_group bl account chat_buddy (purple_find_group bl (some g)))

/-- The buddy nodes of group `g` are well linked: each of them hangs below a listed
group and is the node that the hash table holds for its key. -/
def group_indexed (g : String) (bl : BuddyList) : Prop :=
  ∀ b ∈ bl.buddies, b.group = g → g ∈ bl.groups ∧ bl.index.lookup b.key = some b.ptr

/-- An event as the protocol session reports it through its callbacks. -/
inductive Event where
  | handshake
  | logOn (result : EResult) (steamID : SteamID)
  | sentry (hash : List Byte)
  | userInfo (user : SteamID) (source : Option SteamID) (name : Option String)
      (state : Option EPersonaState)
  | chatEnter (room : SteamID) (response : EChatRoomEnterResponse) (name : String)
      (members : List SteamID)
  | chatStateChange (room acted_by acted_on : SteamID) (state_change : EChatMemberStateChange)
  | chatMsg (room chatter : SteamID) (message : String)
  | privateMsg (user : SteamID) (message : String)
  | typing (user : SteamID)
  | relationships (incremental : Bool) (entries : List (SteamID × EFriendRelationship))
deriving DecidableEq, Repr

/-- The callback that `steam_login` has installed for an event. -/
def dispatch (w : World κ) : Event → World κ
  | .handshake => onHandshake w
  | .logOn result steamID => onLogOn w result steamID
  | .sentry hash => onSentry w hash
  | .userInfo user source name state => onUserInfo w user source name state
  | .chatEnter room response name members => onChatEnter w room response name members
  | .chatStateChange room acted_by acted_on state_change =>
    onChatStateChange w room acted_by acted_on state_change
  | .chatMsg room chatter message => onChatMsg w room chatter message
  | .privateMsg user message => onPrivateMsg w user message
  | .typing user => onTyping w user
  | .relationships incremental entries => onRelationships w incremental entries

/-- The buddy nodes of every group other than "Buddies" are well linked. -/
def well_linked (bl : BuddyList) : Prop :=
  ∀ g, g ≠ "Buddies" → group_indexed g bl

/-- What can happen to a session after `steam_login`, as far as the buddy list and
the chats are concerned: a callback of the protocol session, the host asking to
leave a chat, or the user entering a Steam Guard code. -/
inductive Action where
  | callback (e : Event)
  | chat_leave (id : Nat)
  | guard_token (endpoint : Nat) (steam_guard_token : String)
deriving DecidableEq, Repr

/-- The plugin's reaction to an action. -/
def act (w : World κ) : Action → World κ
  | .callback e => dispatch w e
  | .chat_leave id => steam_chat_leave w id
  | .guard_token endpoint steam_guard_token =>
    steam_set_steam_guard_token_cb w endpoint steam_guard_token

/-- The calls that applying snapshot entries can make: the removal of a buddy (the
`None` case) and the addition of a buddy to the default group (the `Friend` case). -/
def Call.applies_entry : Call → Bool
  | .purple_blist_remove_buddy _ => true
  | .purple_blist_add_buddy _ none => true
  | _ => false

/-- Modelled from the spec: the boundary of the protocol session.  The functions
`SteamClient::connected` and `SteamClient::readable` belong to steam++, which is not
among the sources; the spec gives their interface as "`onConnected() ->
nextFrameLength`; `onFrameComplete(bytes) -> nextFrameLength`; emits events".  A
session is a transition function on its internal state: `connected` returns the
length of the first frame, `readable` consumes a frame, reports events through the
callbacks and returns the length of the next frame. -/
structure Protocol (κ : Type) where
  connected : κ → κ × Nat
  readable : κ → List Byte → κ × List Event × Nat

/-- Replaces the internal state of the protocol session. -/
def World.with_session (w : World κ) (s : κ) : World κ :=
  { w with steam := { w.steam with client := { w.steam.client with session := s } } }

/-- The net effect of `steam->client.connected()` for a session `P`. -/
def Protocol.on_connected (P : Protocol κ) (w : World κ) : World κ × Nat :=
  ((w.with_session (P.connected w.steam.client.session).1),
    (P.connected w.steam.client.session).2)

/-- The net effect of `steam->client.readable(buffer)` for a session `P`: the session
consumes the frame, the callbacks installed by `steam_login` run for the events it
reports, in order, and the length of the next frame is returned. -/
def Protocol.on_readable (P : Protocol κ) (w : World κ) (frame : List Byte) : World κ × Nat :=
  ((P.readable w.steam.client.session frame).2.1.foldl dispatch
      (w.with_session (P.readable w.steam.client.session frame).1),
    (P.readable w.steam.client.session frame).2.2)

/-- The events that make `onLogOn` open a Steam Guard prompt. -/
def Event.denies : Event → Bool
  | .logOn .AccountLogonDenied _ => true
  | _ => false

/-- A session that reports at most one `AccountLogonDenied` result per frame (one
logon attempt is pending at a time). -/
def Protocol.single_denial (P : Protocol κ) : Prop :=
  ∀ s frame, (P.readable s frame).2.1.countP Event.denies ≤ 1

/-- The number of Steam Guard prompts opened by the calls of a log. -/
def prompts_in (log : List Call) : Nat :=
  log.countP fun c =>
    match c with
    | .purple_request_input _ => true
    | _ => false

/-- The plugin together with the host's event loop: the plugin state, the number of
connection attempts started by `purple_proxy_connect` whose callback has not run
yet, the number of open Steam Guard prompts, and the length that the protocol
session returned last from `connected()` or `readable()` (none before the first
connection). -/
structure Loop (κ : Type) where
  world : World κ
  connecting : Nat
  prompts : Nat
  expected : Option Nat

/-- What the event loop can deliver to the plugin: the outcome of a connection
attempt, readiness of the socket with the bytes that the read returns, and the
code typed into a Steam Guard prompt. -/
inductive LoopEvent where
  | connect (source : Int)
  | read (data : List Byte)
  | guard_token (endpoint : Nat) (steam_guard_token : String)
deriving DecidableEq, Repr

/-- The state of the event loop after `steam_login`: one connection attempt is under
way. -/
def Loop.login (session : κ) (account : PurpleAccount) (pc : PurpleConnection)
    (blist : BuddyList) (chats : Chats) (endpoint : Nat) : Loop κ :=
  ⟨steam_login session account pc blist chats endpoint, 1, 0, none⟩

/-- One delivery of the event loop; `none` when the event cannot occur in the state:
a connection callback without a connection attempt under way (or a failed one,
which stops at the assertion), a read without a registered watcher or returning
fewer than 1 or more than the outstanding bytes, a code without an open prompt. -/
def Loop.step (P : Protocol κ) (l : Loop κ) : LoopEvent → Option (Loop κ)
  | .connect source =>
    if l.connecting = 0 then none
    else
      match proxy_connected P.on_connected l.world source with
      | .error _ => none
      | .ok w =>
        some ⟨w, l.connecting - 1, l.prompts,
          some (P.connected l.world.steam.client.session).2⟩
  | .read data =>
    if l.world.inputs = [] then none
    else if data.length = 0 then none
    else if l.world.steam.read_buffer.length - l.world.steam.read_offset < data.length then none
    else
      match readWatcher P.on_readable l.world (.bytes data) with
      | .error _ => none
      | .ok w =>
        some ⟨w, l.connecting, l.prompts + (prompts_in w.log - prompts_in l.world.log),
          if (l.world.store data).steam.read_offset
              = (l.world.store data).steam.read_buffer.length then
            some (P.readable l.world.steam.client.session
              (l.world.store data).steam.read_buffer).2.2
          else l.expected⟩
  | .guard_token endpoint steam_guard_token =>
    if l.prompts = 0 then none
    else
      some ⟨steam_set_steam_guard_token_cb l.world endpoint steam_guard_token,
        l.connecting + 1, l.prompts - 1, l.expected⟩

/-- Delivers the events in order; `none` as soon as one of them cannot occur. -/
def Loop.run (P : Protocol κ) (l : Loop κ) : List LoopEvent → Option (Loop κ)
  | [] => some l
  | e :: es =>
    match l.step P e with
    | none => none
    | some l1 => Loop.run P l1 es

/-- The step from `w` to `after` leaves the `SteamPurple` record and the registered
watchers as they are and opens no Steam Guard prompt. -/
def World.quiet (w after : World κ) : Prop :=
  after.steam = w.steam ∧ after.inputs = w.inputs ∧ prompts_in after.log = prompts_in w.log

/-- The invariant of the event loop: the read offset lies within the read buffer;
the buffer has the length that the session returned last; a registered watcher
implies that a length has been returned; at most the plugin's current watcher is
registered; at most one connection attempt or Steam Guard prompt is pending, and
while one is, the read offset is 0 and no watcher is registered. -/
def Loop.inv (l : Loop κ) : Prop :=
  l.world.steam.read_offset ≤ l.world.steam.read_buffer.length
  ∧ (∀ n, l.expected = some n → l.world.steam.read_buffer.length = n)
  ∧ (l.world.inputs ≠ [] → l.expected ≠ none)
  ∧ (l.world.inputs = [] ∨ ∃ fd, l.world.inputs = [(l.world.steam.watcher, fd)])
  ∧ l.connecting + l.prompts ≤ 1
  ∧ (0 < l.connecting + l.prompts → l.world.steam.read_offset = 0 ∧ l.world.inputs = [])

/-! ## Sample data -/

/-- A sample account. -/
def sample_account : PurpleAccount := ⟨1, "user", "secret", none⟩

/-- The state right after `steam_login` on an empty buddy list. -/
def sample_world : World Unit :=
  steam_login () sample_account ⟨.CONNECTING, none⟩ ⟨[], [], [], 0⟩ ⟨[], [], 0⟩ 0

/-- A sample protocol session: it asks for one byte more with every frame. -/
def sample_readable : World Unit → List Byte → World Unit × Nat :=
  fun w frame => (w, frame.length + 1)

/-- The sample state while a frame of four bytes is expected. -/
def sample_pump : World Unit :=
  { sample_world with steam := { sample_world.steam with read_buffer := [0, 0, 0, 0] } }

/-- A sample chat room: account type `Chat`, account id 77. -/
def sample_room : SteamID := ⟨8 * 2 ^ 52 + 77⟩

/-- The sample session logged on as 10, in the sample room with the members 10 and
11, after user-info events for both of them. -/
def sample_chat : World Unit :=
  onUserInfo
    (onUserInfo
      (onChatEnter (onLogOn sample_world .OK ⟨10⟩) sample_room .Success "Room" [⟨10⟩, ⟨11⟩])
      ⟨10⟩ (some sample_room) none none)
    ⟨11⟩ (some sample_room) none none

/-- The conversation of the sample room in `sample_chat`. -/
def sample_conversation : PurpleConversation :=
  ⟨0, "36028797018964045", "Room", 77, ["10", "11"], false⟩

/-- The sample session after it was kicked from the sample room and has entered it
again, now with the members 10 and 12, followed by a user-info event for 12. -/
def sample_rejoined : World Unit :=
  onUserInfo
    (onChatEnter (onChatStateChange sample_chat sample_room ⟨1⟩ ⟨10⟩ .Kicked)
      sample_room .Success "Room" [⟨10⟩, ⟨12⟩])
    ⟨12⟩ (some sample_room) none none

/-- A sample session: the first frame has four bytes; a frame that starts with the
byte 63 reports `AccountLogonDenied`; every frame is followed by one of two bytes. -/
def sample_protocol : Protocol Unit :=
  ⟨fun s => (s, 4),
    fun s frame => (s, if frame.head? = some 63 then [.logOn .AccountLogonDenied ⟨10⟩] else [], 2)⟩

/-- The sample event loop right after `steam_login`. -/
def sample_loop : Loop Unit :=
  Loop.login () sample_account ⟨.CONNECTING, none⟩ ⟨[], [], [], 0⟩ ⟨[], [], 0⟩ 0

/-- A second sample chat room: account type `Chat`, the clan flag set in the instance
bits, account id 77.  Its 32-bit `ID` is that of `sample_room`. -/
def sample_clan_room : SteamID := ⟨8 * 2 ^ 52 + 2 ^ 51 + 77⟩

/-- The sample session logged on as 10, after it entered the sample room (member 10)
and then the sample clan room (member 11). -/
def sample_two_rooms : World Unit :=
  onChatEnter
    (onChatEnter (onLogOn sample_world .OK ⟨10⟩) sample_room .Success "Room" [⟨10⟩])
    sample_clan_room .Success "Clan" [⟨11⟩]

/-- A sample session whose state counts its connections: the first frame has three
bytes on the second connection and one byte on the others; a frame that starts with
the byte 63 reports `AccountLogonDenied` twice; every frame is followed by one of one
byte. -/
def sample_protocol_two_denials : Protocol Nat :=
  ⟨fun s => (s + 1, if s = 1 then 3 else 1),
    fun s frame => (s,
      if frame.head? = some 63 then
        [.logOn .AccountLogonDenied ⟨10⟩, .logOn .AccountLogonDenied ⟨10⟩]
      else [], 1)⟩

/-- The event loop right after `steam_login`, for a session that counts its
connections. -/
def sample_loop_counting : Loop Nat :=
  Loop.login 0 sample_account ⟨.CONNECTING, none⟩ ⟨[], [], [], 0⟩ ⟨[], [], 0⟩ 0

/-- The connection is made, a frame that denies the logon twice is read, a code is
typed into each of the two prompts, the first of the two new connections is made and
two of the three bytes of its first frame are read. -/
def sample_two_reconnects : List LoopEvent :=
  [.connect 5, .read [63], .guard_token 0 "a", .guard_token 0 "b", .connect 6, .read [9, 9]]


/-! ## The frame pump delivers one frame, however the bytes are chunked -/

theorem store_nil (w : World κ) : w.store [] = w := by
  cases w with
  | mk steam account pc blist chats sockets inputs next_input log =>
    cases steam
    simp [World.store]

theorem store_store (w : World κ) (a b : List Byte)
    (h : w.steam.read_offset + a.length ≤ w.steam.read_buffer.length) :
    (w.store a).store b = w.store (a ++ b) := by
  have ho : w.steam.read_offset ≤ w.steam.read_buffer.length := by omega
  have hlen : (List.take w.steam.read_offset w.steam.read_buffer ++ a).length
      = w.steam.read_offset + a.length := by
    simp [List.length_take, ho]
  have h1 : List.take (w.steam.read_offset + a.length)
      (List.take w.steam.read_offset w.steam.read_buffer ++ a ++
        List.drop (w.steam.read_offset + a.length) w.steam.read_buffer)
      = List.take w.steam.read_offset w.steam.read_buffer ++ a := by
    rw [List.take_append_of_le_length (by omega), List.take_of_length_le (by omega)]
  have h2 : List.drop (w.steam.read_offset + a.length + b.length)
      (List.take w.steam.read_offset w.steam.read_buffer ++ a ++
        List.drop (w.steam.read_offset + a.length) w.steam.read_buffer)
      = List.drop (w.steam.read_offset + (a.length + b.length)) w.steam.read_buffer := by
    rw [List.drop_append_eq_append_drop, List.drop_of_length_le (by omega), hlen,
      List.drop_drop]
    simp
    congr 1
    omega
  simp only [World.store]
  rw [h2, h1]
  simp [Nat.add_assoc]

theorem store_length (w : World κ) (a : List Byte)
    (h : w.steam.read_offset + a.length ≤ w.steam.read_buffer.length) :
    (w.store a).steam.read_buffer.length = w.steam.read_buffer.length := by
  simp [World.store, List.length_take, List.length_drop]
  omega

theorem readWatcher_stores (readable : World κ → List Byte → World κ × Nat) (w : World κ)
    (c : List Byte) (hc : c ≠ [])
    (h : w.steam.read_offset + c.length < w.steam.read_buffer.length) :
    readWatcher readable w (.bytes c) = .ok (w.store c) := by
  have hpos : 0 < c.length := List.length_pos.mpr hc
  have htake : List.take (w.steam.read_buffer.length - w.steam.read_offset) c = c :=
    List.take_of_length_le (by omega)
  have hlen := store_length w c (by omega)
  have hoff : (w.store c).steam.read_offset = w.steam.read_offset + c.length := rfl
  simp only [readWatcher, htake]
  rw [if_neg (by omega), if_neg (by omega)]

theorem readWatcher_last (readable : World κ → List Byte → World κ × Nat) (w : World κ)
    (c : List Byte) (hc : c ≠ [])
    (h : w.steam.read_offset + c.length = w.steam.read_buffer.length) :
    readWatcher readable w (.bytes c) = .ok (frame_complete readable (w.store c)) := by
  have hpos : 0 < c.length := List.length_pos.mpr hc
  have htake : List.take (w.steam.read_buffer.length - w.steam.read_offset) c = c :=
    List.take_of_length_le (by omega)
  have hlen := store_length w c (by omega)
  have hoff : (w.store c).steam.read_offset = w.steam.read_offset + c.length := rfl
  simp only [readWatcher, htake]
  rw [if_neg (by omega), if_pos (by omega)]

theorem runReads_append (readable : World κ → List Byte → World κ × Nat) (w w1 : World κ)
    (a b : List ReadResult) (h : runReads readable w a = .ok w1) :
    runReads readable w (a ++ b) = runReads readable w1 b := by
  induction a generalizing w with
  | nil =>
    simp only [runReads] at h
    cases h
    rfl
  | cons r rs ih =>
    simp only [runReads, List.cons_append] at h ⊢
    cases hr : readWatcher readable w r with
    | error e => rw [hr] at h; cases h
    | ok w2 =>
      rw [hr] at h
      simp only at h ⊢
      exact ih w2 h

theorem runReads_stores (readable : World κ → List Byte → World κ × Nat)
    (chunks : List (List Byte)) (w : World κ) (hpos : ∀ c ∈ chunks, c ≠ [])
    (h : w.steam.read_offset + chunks.flatten.length < w.steam.read_buffer.length) :
    runReads readable w (chunks.map .bytes) = .ok (w.store chunks.flatten) := by
  induction chunks generalizing w with
  | nil => simp [runReads, store_nil]
  | cons c cs ih =>
    simp only [List.flatten_cons, List.length_append] at h
    have hc : c ≠ [] := hpos c (List.mem_cons_self _ _)
    simp only [List.map_cons, runReads, readWatcher_stores readable w c hc (by omega)]
    have hlen := store_length w c (by omega)
    have hoff : (w.store c).steam.read_offset = w.steam.read_offset + c.length := rfl
    rw [ih (w.store c) (fun x hx => hpos x (List.mem_cons_of_mem _ hx)) (by omega),
      store_store w c cs.flatten (by omega)]
    rfl

theorem flatten_take_lt (chunks : List (List Byte)) (hpos : ∀ c ∈ chunks, c ≠ []) (k : Nat)
    (hk : k < chunks.length) :
    (chunks.take k).flatten.length < chunks.flatten.length := by
  induction chunks generalizing k with
  | nil => simp at hk
  | cons c cs ih =>
    have hc : 0 < c.length := List.length_pos.mpr (hpos c (List.mem_cons_self _ _))
    cases k with
    | zero => simp; omega
    | succ k =>
      have := ih (fun x hx => hpos x (List.mem_cons_of_mem _ hx)) k (by simpa using hk)
      simp only [List.take_succ_cons, List.flatten_cons, List.length_append]
      omega

theorem resize_length (v : List Byte) (n : Nat) : (resize v n).length = n := by
  simp only [resize, List.length_append, List.length_take, List.length_replicate]
  omega

/-- C1: when a frame of `n > 0` bytes arrives in any sequence of non-empty reads that
sum to `n`, starting from offset 0 and a buffer of length `n`, every read before the
last leaves the state as it was except that the bytes received so far stand at the
front of the buffer and the offset counts them (so `readable` has not run and the
call log is untouched); the whole sequence ends in the state that one application of
`readable` returns when it is handed the `n` bytes in arrival order, in a state whose
buffer is those bytes, whose offset is `n` and whose log has gained the single entry
`readable(frame)`, with the offset then set to 0 and the buffer resized to the
returned length; this is also the state reached by one read of all `n` bytes; and when
`readable` itself logs nothing, the log of the whole sequence is the old log followed
by exactly that one `readable(frame)` entry. -/
theorem read_watcher_delivers_one_frame (readable : World κ → List Byte → World κ × Nat)
    (w : World κ) (n : Nat) (chunks : List (List Byte)) (hn : 0 < n)
    (hoff : w.steam.read_offset = 0) (hlen : w.steam.read_buffer.length = n)
    (hpos : ∀ c ∈ chunks, c ≠ []) (hsum : chunks.flatten.length = n) :
    let frame := chunks.flatten
    let handed : World κ := { w with
      steam := { w.steam with read_buffer := frame, read_offset := n }
      log := w.log ++ [Call.readable frame] }
    let res := readable handed frame
    (∀ k, k < chunks.length →
      runReads readable w ((chunks.take k).map .bytes)
        = .ok { w with steam := { w.steam with
            read_buffer := (chunks.take k).flatten
              ++ w.steam.read_buffer.drop (chunks.take k).flatten.length
            read_offset := (chunks.take k).flatten.length } })
    ∧ runReads readable w (chunks.map .bytes)
        = .ok { res.1 with steam := { res.1.steam with
            read_offset := 0
            read_buffer := res.1.steam.read_buffer.take res.2
              ++ List.replicate (res.2 - res.1.steam.read_buffer.length) 0 } }
    ∧ runReads readable w (chunks.map .bytes) = runReads readable w [.bytes frame]
    ∧ ∃ after, runReads readable w (chunks.map .bytes) = .ok after
        ∧ after.steam.read_offset = 0
        ∧ after.steam.read_buffer.length = res.2
        ∧ (res.1.log = handed.log → after.log = w.log ++ [Call.readable frame]) := by
  intro frame handed res
  have hne : chunks.flatten ≠ [] := by
    intro h0
    rw [h0] at hsum
    simp at hsum
    omega
  have hfirst : ∀ k, k < chunks.length →
      runReads readable w ((chunks.take k).map .bytes)
        = .ok (w.store (chunks.take k).flatten) := by
    intro k hk
    have hlt := flatten_take_lt chunks hpos k hk
    exact runReads_stores readable (chunks.take k) w
      (fun c hc => hpos c (List.mem_of_mem_take hc)) (by omega)
  have hsingle : runReads readable w [.bytes chunks.flatten]
      = .ok (frame_complete readable (w.store chunks.flatten)) := by
    simp only [runReads, readWatcher_last readable w chunks.flatten hne (by omega)]
  have hall : runReads readable w (chunks.map .bytes)
      = .ok (frame_complete readable (w.store chunks.flatten)) := by
    rcases List.eq_nil_or_concat chunks with h0 | ⟨init, last, hcat⟩
    · subst h0
      simp at hne
    · rw [List.concat_eq_append] at hcat
      subst hcat
      have hk : init.length < (init ++ [last]).length := by simp
      have hp := hfirst init.length hk
      have hlt := flatten_take_lt (init ++ [last]) hpos init.length hk
      simp only [List.take_left'] at hp hlt
      have hlast : last ≠ [] := hpos last (by simp)
      have hfl : (init ++ [last]).flatten = init.flatten ++ last := by simp
      rw [hfl] at hsum hlt ⊢
      simp only [List.length_append] at hsum hlt
      have hl := store_length w init.flatten (by omega)
      have ho : (w.store init.flatten).steam.read_offset
          = w.steam.read_offset + init.flatten.length := rfl
      rw [List.map_append, runReads_append readable w _ _ _ hp]
      simp only [List.map, runReads]
      rw [readWatcher_last readable (w.store init.flatten) last hlast (by omega),
        store_store w init.flatten last (by omega)]
  have hstore : ∀ got : List Byte, w.store got = { w with steam := { w.steam with
      read_buffer := got ++ w.steam.read_buffer.drop got.length
      read_offset := got.length } } := by
    intro got
    simp only [World.store, hoff]
    simp
  have hbuf : (w.store chunks.flatten).steam.read_buffer = frame := by
    rw [hstore]
    simp only [frame]
    rw [List.drop_of_length_le (by omega)]
    simp
  have hhanded : (w.store chunks.flatten).call (.readable frame) = handed := by
    rw [hstore]
    simp only [World.call, handed, frame]
    rw [List.drop_of_length_le (by omega)]
    simp [hsum]
  have hfinal : frame_complete readable (w.store chunks.flatten)
      = { res.1 with steam := { res.1.steam with
            read_offset := 0
            read_buffer := res.1.steam.read_buffer.take res.2
              ++ List.replicate (res.2 - res.1.steam.read_buffer.length) 0 } } := by
    simp only [frame_complete, hhanded, hbuf, resize, res]
  refine ⟨fun k hk => ?_, ?_, ?_, ?_⟩
  · rw [hfirst k hk, hstore]
  · rw [hall, hfinal]
  · rw [hall, hsingle]
  · refine ⟨_, hall.trans (congrArg _ hfinal), rfl, ?_, ?_⟩
    · simp
      omega
    · intro hlog
      simp only [hlog, handed]

theorem read_watcher_delivers_one_frame_witness :
    (0 < 4 ∧ sample_pump.steam.read_offset = 0 ∧ sample_pump.steam.read_buffer.length = 4
      ∧ (∀ c ∈ [[1, 2], [3], [4]], c ≠ ([] : List Byte))
      ∧ ([[1, 2], [3], [4]] : List (List Byte)).flatten.length = 4)
    ∧ runReads sample_readable sample_pump [.bytes [1, 2], .bytes [3], .bytes [4]]
        = .ok { sample_pump with
            steam := { sample_pump.steam with read_offset := 0, read_buffer := [1, 2, 3, 4, 0] }
            log := sample_pump.log ++ [Call.readable [1, 2, 3, 4]] } :=
  ⟨⟨by decide, rfl, rfl, by decide, rfl⟩,
    (read_watcher_delivers_one_frame sample_readable sample_pump 4 [[1, 2], [3], [4]]
      (by decide) rfl rfl (by decide) rfl).2.1⟩

/-! ## Decimal names -/

theorem digitChar_isDigit (d : Nat) (h : d < 10) :
    (Nat.digitChar d).isDigit = true ∧ (Nat.digitChar d).toNat - 48 = d
      ∧ g_ascii_isspace (Nat.digitChar d) = false
      ∧ Nat.digitChar d ≠ '-' ∧ Nat.digitChar d ≠ '+' := by
  interval_cases d <;> decide

theorem toDigitsCore_head (fuel n : Nat) (ds : List Char) (hf : 0 < fuel) :
    ∃ d, d < 10 ∧ ∃ rest, Nat.toDigitsCore 10 fuel n ds = Nat.digitChar d :: rest := by
  induction fuel generalizing n ds with
  | zero => omega
  | succ f ih =>
    simp only [Nat.toDigitsCore]
    split
    · exact ⟨n % 10, Nat.mod_lt _ (by decide), ds, rfl⟩
    · cases f with
      | zero => exact ⟨n % 10, Nat.mod_lt _ (by decide), ds, rfl⟩
      | succ f => exact ih (n / 10) (Nat.digitChar (n % 10) :: ds) (by omega)

theorem parse_toDigitsCore (fuel n : Nat) (ds : List Char) (acc : Nat) (seen : Bool)
    (hf : n < fuel) :
    ∃ k, parse_digits (Nat.toDigitsCore 10 fuel n ds) acc seen
      = parse_digits ds (acc * 10 ^ k + n) true := by
  induction fuel generalizing n ds acc seen with
  | zero => omega
  | succ f ih =>
    have hd := digitChar_isDigit (n % 10) (Nat.mod_lt _ (by decide))
    simp only [Nat.toDigitsCore]
    split
    · rename_i h0
      refine ⟨1, ?_⟩
      simp only [parse_digits, hd.1, hd.2.1, if_true]
      congr 1
      omega
    · rename_i h0
      have hlt : n / 10 < f := by omega
      obtain ⟨k, hk⟩ := ih (n / 10) (Nat.digitChar (n % 10) :: ds) acc seen hlt
      refine ⟨k + 1, ?_⟩
      rw [hk]
      simp only [parse_digits, hd.1, hd.2.1, if_true]
      congr 1
      rw [pow_succ]
      have := Nat.div_add_mod n 10
      nlinarith [this]

/-- The decimal rendering of a 64-bit identifier is read back by `g_ascii_strtoull`. -/
theorem g_ascii_strtoull_steamID_string (s : SteamID) (h : s.steamID64 < 2 ^ 64) :
    g_ascii_strtoull (some (steamID_string s)) = s.steamID64 := by
  obtain ⟨d, hd, rest, hrest⟩ := toDigitsCore_head (s.steamID64 + 1) s.steamID64 [] (by omega)
  obtain ⟨k, hk⟩ := parse_toDigitsCore (s.steamID64 + 1) s.steamID64 [] 0 false (by omega)
  have hdc := digitChar_isDigit d hd
  have hdata : (steamID_string s).data = Nat.toDigitsCore 10 (s.steamID64 + 1) s.steamID64 [] := rfl
  have hdrop : List.dropWhile g_ascii_isspace (Nat.digitChar d :: rest) = Nat.digitChar d :: rest := by
    simp [List.dropWhile, hdc.2.2.1]
  have hparse : parse_digits (Nat.digitChar d :: rest) 0 false = (s.steamID64, true) := by
    rw [← hrest, hk]
    simp [parse_digits]
  simp only [g_ascii_strtoull, hdata, hrest, hdrop, hparse, List.head?_cons, List.tail_cons]
  simp only [hdc.2.2.2.1, hdc.2.2.2.2, or_self, if_false, Option.some.injEq]
  rw [hparse]
  have h64 : s.steamID64 < 18446744073709551616 := by simpa using h
  simp [h64]


/-! ## Relationship snapshots -/

/-- C7 (defect in the code): the `Friend` case links a newly allocated buddy node
whatever the buddy list holds, without the `purple_find_buddy` test that the sibling
path in `onUserInfo` makes before it adds.  So an incremental snapshot with the
single entry `(u, Friend)` is never a no-op: on a roster that already lists `u` as a
friend it leaves two nodes for `u`. -/
theorem friend_entry_links_second_node :
    (∀ (κ : Type) (w : World κ) (u : SteamID),
      (onRelationships w true [(u, .Friend)]).blist.buddies
          = w.blist.buddies ++ [⟨w.blist.next, w.account.id, steamID_string u, "Buddies"⟩]
        ∧ (onRelationships w true [(u, .Friend)]).blist ≠ w.blist)
    ∧ ((onRelationships sample_world true [(⟨7⟩, .Friend)]).blist.buddies.map fun b => b.name)
        = ["7"]
    ∧ ((onRelationships (onRelationships sample_world true [(⟨7⟩, .Friend)]) true
          [(⟨7⟩, .Friend)]).blist.buddies.map fun b => b.name) = ["7", "7"] := by
  refine ⟨fun κ w u => ⟨rfl, fun h => ?_⟩, by decide, by decide⟩
  have hlen := congrArg (fun bl => bl.buddies.length) h
  have hb : (onRelationships w true [(u, .Friend)]).blist.buddies
      = w.blist.buddies ++ [⟨w.blist.next, w.account.id, steamID_string u, "Buddies"⟩] := rfl
  simp only [hb, List.length_append, List.length_singleton] at hlen
  omega

/-- C2 (defect in the code): a full snapshot that lists the identity 7 twice as
`Friend`, applied to the empty roster.  One application leaves two nodes named 7, of
which only the second has a hash-table entry; the second application clears only
that one and links two more, leaving three. -/
theorem full_snapshot_twice_differs :
    ((onRelationships sample_world false
        [(⟨7⟩, .Friend), (⟨7⟩, .Friend)]).blist.buddies.map fun b => b.name) = ["7", "7"]
    ∧ ((onRelationships
          (onRelationships sample_world false [(⟨7⟩, .Friend), (⟨7⟩, .Friend)]) false
          [(⟨7⟩, .Friend), (⟨7⟩, .Friend)]).blist.buddies.map fun b => b.name)
        = ["7", "7", "7"] := by
  decide

/-! ## Entering a chat room -/

theorem find_update (chats : List PurpleConversation) (p : Nat)
    (f : PurpleConversation → PurpleConversation) (hf : ∀ c, (f c).ptr = c.ptr) :
    (chats.map fun c => if c.ptr = p then f c else c).find? (fun c => c.ptr = p)
      = (chats.find? fun c => c.ptr = p).map f := by
  induction chats with
  | nil => rfl
  | cons c cs ih =>
    by_cases hc : c.ptr = p
    · simp [List.find?, hc, hf]
    · simp [List.find?, hc, ih]

theorem joined_chat_fresh (cs : Chats) (id : Nat) (name : String) :
    ∃ c, (serv_got_joined_chat cs id name).2.chats.find?
        (fun c => c.ptr = (serv_got_joined_chat cs id name).1) = some c
      ∧ c.id = id ∧ c.left = false ∧ c.in_room = [] := by
  unfold serv_got_joined_chat
  cases h : Option.filter (fun c => c.left) (cs.chats.find? fun c => c.name = name) with
  | none =>
    simp [List.find?]
  | some c =>
    simp only
    rw [find_update cs.chats c.ptr
      (fun x => { x with in_room := [], left := false, id := id }) (fun _ => rfl)]
    have hfound : ∃ x, cs.chats.find? (fun x => x.ptr = c.ptr) = some x := by
      have hmem : c ∈ cs.chats := by
        have h2 : cs.chats.find? (fun c => c.name = name) = some c := by
          cases hq : cs.chats.find? (fun c => c.name = name) with
          | none => rw [hq] at h; simp at h
          | some y =>
            rw [hq] at h
            simp [Option.filter] at h
            rw [h.2]
        exact List.mem_of_find?_eq_some h2
      cases hq : cs.chats.find? (fun x => x.ptr = c.ptr) with
      | none =>
        have := List.find?_eq_none.mp hq c hmem
        simp at this
      | some x => exact ⟨x, rfl⟩
    obtain ⟨x, hx⟩ := hfound
    rw [hx]
    exact ⟨_, rfl, rfl, rfl, rfl⟩


theorem find_add_user (cs : Chats) (p : Nat) (u : String) :
    (purple_conv_chat_add_user cs (some p) u).chats.find? (fun c => c.ptr = p)
      = (cs.chats.find? fun c => c.ptr = p).map fun c => { c with in_room := u :: c.in_room } :=
  find_update cs.chats p _ (fun _ => rfl)

theorem foldl_chat_add_user (l : List SteamID) (p : Nat) (w : World κ) :
    (l.foldl (fun acc member => acc.chat_add_user (some p) (steamID_string member) false) w).blist
        = w.blist
    ∧ (l.foldl (fun acc member => acc.chat_add_user (some p) (steamID_string member) false)
        w).chats.chats.find? (fun c => c.ptr = p)
      = (w.chats.chats.find? fun c => c.ptr = p).map fun c =>
          { c with in_room := (l.reverse.map steamID_string) ++ c.in_room } := by
  induction l generalizing w with
  | nil =>
    simp only [List.foldl, List.reverse_nil, List.map_nil, List.nil_append, true_and]
    cases List.find? (fun c => decide (c.ptr = p)) w.chats.chats <;> rfl
  | cons m ms ih =>
    obtain ⟨h1, h2⟩ := ih (w.chat_add_user (some p) (steamID_string m) false)
    refine ⟨h1, ?_⟩
    simp only [List.foldl]
    rw [h2]
    have := find_add_user w.chats p (steamID_string m)
    simp only [World.chat_add_user]
    rw [this]
    cases List.find? (fun c => decide (c.ptr = p)) w.chats.chats <;> simp

theorem user_info_creates_group (w : World κ) (user room : SteamID) (name : Option String)
    (state : Option EPersonaState) (hroom : room.type = EAccountType_Chat) :
    purple_find_group (onUserInfo w user (some room) name state).blist
      (some (steamID_string room)) = some (.listed (steamID_string room)) := by
  have hblist : (onUserInfo w user (some room) name state).blist
      = (if purple_find_buddy_in_group w.blist w.account.id (steamID_string user)
            (some (purple_group_new w.blist (steamID_string room))) = none then
          w.blist_add_buddy (steamID_string user)
            (some (purple_group_new w.blist (steamID_string room)))
        else w).blist := by
    simp only [onUserInfo, hroom, if_true]
    cases name <;> cases state <;> simp only [World.call] <;> split_ifs <;> rfl
  rw [hblist]
  by_cases hg : steamID_string room ∈ w.blist.groups
  · have hnew : purple_group_new w.blist (steamID_string room) = .listed (steamID_string room) := by
      simp [purple_group_new, hg]
    rw [hnew]
    split
    · simp [World.blist_add_buddy, purple_blist_add_buddy, purple_find_group, PurpleGroup.name,
        add_buddy_group, hg]
    · simp [purple_find_group, hg]
  · have hnew : purple_group_new w.blist (steamID_string room) = .detached (steamID_string room) := by
      simp [purple_group_new, hg]
    rw [hnew]
    simp [purple_find_buddy_in_group, World.blist_add_buddy, purple_blist_add_buddy,
      purple_find_group, PurpleGroup.name, add_buddy_group, hg]

/-- C3 (amended): after `onChatEnter` with response Success, the conversation that
the host returned for the room has the room's chat id, is not marked as left, and
its user list is the list of the listed members' names, so its membership set is
exactly the set of listed members; for 64-bit identifiers the names read back as the
identities.  `onChatEnter` leaves the buddy list as it is, so it does not create the
auxiliary group; the group named by the room's identifier exists after every
user-info event whose source is the chat-typed room. -/
theorem chat_enter_members_then_user_info_group (w : World κ) (room : SteamID) (name : String)
    (members : List SteamID) :
    (∃ c, (onChatEnter w room .Success name members).chats.chats.find?
          (fun c => c.ptr = (serv_got_joined_chat w.chats room.ID (steamID_string room)).1) = some c
        ∧ c.id = room.ID ∧ c.left = false
        ∧ c.in_room = members.map steamID_string
        ∧ (∀ x, x ∈ c.in_room ↔ ∃ m ∈ members, steamID_string m = x)
        ∧ ((∀ m ∈ members, m.steamID64 < 2 ^ 64) →
            c.in_room.map (fun x => g_ascii_strtoull (some x))
              = members.map fun m => m.steamID64))
    ∧ (onChatEnter w room .Success name members).blist = w.blist
    ∧ ∀ (user : SteamID) (alias_name : Option String) (state : Option EPersonaState),
        room.type = EAccountType_Chat →
        purple_find_group
          (onUserInfo (onChatEnter w room .Success name members) user (some room) alias_name
            state).blist
          (some (steamID_string room)) = some (.listed (steamID_string room)) := by
  refine ⟨?_, ?_, fun user alias_name state hroom => user_info_creates_group _ user room _ _ hroom⟩
  · obtain ⟨c, hc, hid, hleft, hroom⟩ := joined_chat_fresh w.chats room.ID (steamID_string room)
    simp only [onChatEnter]
    rw [(foldl_chat_add_user members.reverse _ _).2]
    simp only [purple_conversation_set_title, Chats.update]
    rw [find_update _ _ (fun c => { c with title := name }) (fun _ => rfl), hc]
    refine ⟨_, rfl, hid, hleft, ?_, ?_, ?_⟩
    · simp [hroom]
    · intro x
      simp [hroom]
    · intro h64
      simp only [hroom, List.reverse_reverse, List.append_nil, List.map_map]
      exact List.map_congr_left fun m hm => g_ascii_strtoull_steamID_string m (h64 m hm)
  · simp only [onChatEnter]
    rw [(foldl_chat_add_user members.reverse _ _).1]


theorem chat_enter_members_then_user_info_group_witness :
    sample_room.type = EAccountType_Chat
    ∧ purple_find_group
        (onUserInfo (onChatEnter sample_world sample_room .Success "Room" [⟨10⟩, ⟨11⟩, ⟨12⟩])
          ⟨10⟩ (some sample_room) none none).blist
        (some (steamID_string sample_room)) = some (.listed (steamID_string sample_room)) :=
  ⟨by decide,
    (chat_enter_members_then_user_info_group sample_world sample_room "Room"
      [⟨10⟩, ⟨11⟩, ⟨12⟩]).2.2 ⟨10⟩ none none (by decide)⟩

/-- C3 (counterexample): on the empty buddy list, after `onChatEnter` for a room with
the members 10, 11 and 12 the conversation lists the three members, but no group
named by the room's identifier exists. -/
theorem chat_enter_alone_creates_no_group :
    ¬ (((onChatEnter sample_world sample_room .Success "Room"
          [⟨10⟩, ⟨11⟩, ⟨12⟩]).chats.chats.map fun c => c.in_room) = [["10", "11", "12"]]
        ∧ steamID_string sample_room ∈
          (onChatEnter sample_world sample_room .Success "Room"
            [⟨10⟩, ⟨11⟩, ⟨12⟩]).blist.groups) := by
  decide

/-! ## Logon results and the Steam Guard reconnect -/

/-- C9: `onLogOn` is total and classifies every result code.  `OK` sets the persona
state to Online, marks the connection connected and sets the display name to the
decimal rendering of the identity; `InvalidPassword` reports an authentication
failure; `ServiceUnavailable` and `TryAnotherCM` each report a network error; every
code other than these four and `AccountLogonDenied` reports the other (unknown)
error. -/
theorem logon_result_classified (w : World κ) (steamID : SteamID) :
    ((onLogOn w .OK steamID).log
        = w.log ++ [.SetPersonaState .Online, .purple_connection_set_state .CONNECTED,
            .purple_connection_set_display_name (steamID_string steamID)]
      ∧ (onLogOn w .OK steamID).pc = ⟨.CONNECTED, some (steamID_string steamID)⟩)
    ∧ (onLogOn w .InvalidPassword steamID).log
        = w.log ++ [.purple_connection_error_reason .AUTHENTICATION_FAILED "Invalid password"]
    ∧ (onLogOn w .ServiceUnavailable steamID).log
        = w.log ++ [.purple_connection_error_reason .NETWORK_ERROR "Steam is down"]
    ∧ (onLogOn w .TryAnotherCM steamID).log
        = w.log ++ [.purple_connection_error_reason .NETWORK_ERROR "This server is down"]
    ∧ ∀ result : EResult,
        result ∉ [.OK, .AccountLogonDenied, .InvalidPassword, .ServiceUnavailable, .TryAnotherCM] →
        (onLogOn w result steamID).log
          = w.log ++ [.purple_connection_error_reason .OTHER_ERROR "Unknown error"] := by
  refine ⟨⟨?_, rfl⟩, rfl, rfl, rfl, ?_⟩
  · simp [onLogOn, World.connection_set_display_name, World.connection_set_state, World.call]
  · intro result hres
    cases result <;> simp at hres
    rfl


theorem logon_result_classified_witness :
    EResult.other 2 ∉
        [EResult.OK, .AccountLogonDenied, .InvalidPassword, .ServiceUnavailable, .TryAnotherCM]
    ∧ (onLogOn sample_world (.other 2) ⟨10⟩).log
        = sample_world.log ++ [.purple_connection_error_reason .OTHER_ERROR "Unknown error"] :=
  ⟨by decide, (logon_result_classified sample_world ⟨10⟩).2.2.2.2 (.other 2) (by decide)⟩

/-- C4: on `AccountLogonDenied`, `onLogOn` opens the Steam Guard prompt, closes the
active socket and removes its read watcher (the descriptor is no longer open, the
watcher no longer registered).  `steam_set_steam_guard_token_cb` then starts one new
connection and installs a handshake callback that holds the code; when the handshake
callback runs, then or in any later state that still holds it, it issues exactly one
`LogOn` request, and that request carries the code. -/
theorem step_up_closes_then_reconnects_with_code (w : World κ) (steamID : SteamID)
    (endpoint : Nat) (token : String) :
    w.steam.fd ∉ (onLogOn w .AccountLogonDenied steamID).sockets
    ∧ (∀ fd, (w.steam.watcher, fd) ∉ (onLogOn w .AccountLogonDenied steamID).inputs)
    ∧ (onLogOn w .AccountLogonDenied steamID).log
        = w.log ++ [.purple_request_input "Set your Steam Guard Code", .close w.steam.fd,
            .purple_input_remove w.steam.watcher]
    ∧ (steam_set_steam_guard_token_cb (onLogOn w .AccountLogonDenied steamID) endpoint token).log
        = (onLogOn w .AccountLogonDenied steamID).log ++ [.purple_proxy_connect endpoint]
    ∧ (steam_set_steam_guard_token_cb (onLogOn w .AccountLogonDenied steamID) endpoint
        token).steam.client.onHandshake = .guard token
    ∧ (∀ (connected : World κ → World κ × Nat) (source : Int), source ≠ -1 →
        ∃ opened, proxy_connected connected
            (steam_set_steam_guard_token_cb (onLogOn w .AccountLogonDenied steamID) endpoint token)
            source = .ok opened
          ∧ (opened.steam.watcher, source) ∈ opened.inputs
          ∧ opened.log.getLast? = some (.purple_input_add source))
    ∧ (onHandshake
        (steam_set_steam_guard_token_cb (onLogOn w .AccountLogonDenied steamID) endpoint token)).log
        = (steam_set_steam_guard_token_cb (onLogOn w .AccountLogonDenied steamID) endpoint
            token).log ++ [.LogOn w.account.username w.account.password none (some token)]
    ∧ ∀ later : World κ,
        (onHandshake { later with
          steam := { later.steam with
            client := { later.steam.client with
              onHandshake := (steam_set_steam_guard_token_cb
                (onLogOn w .AccountLogonDenied steamID) endpoint token).steam.client.onHandshake } } }).log
          = later.log ++ [.LogOn later.account.username later.account.password none (some token)] := by
  refine ⟨?_, ?_, ?_, rfl, rfl, ?_, rfl, fun later => rfl⟩
  · simp [onLogOn, World.input_remove, World.close, World.call]
  · intro fd
    simp [onLogOn, World.input_remove, World.close, World.call]
  · simp [onLogOn, World.input_remove, World.close, World.call]
  · intro connected source hsource
    simp only [proxy_connected, if_neg hsource]
    exact ⟨_, rfl, by simp, by simp⟩

theorem step_up_closes_then_reconnects_with_code_witness :
    (5 : Int) ≠ -1
    ∧ ∃ opened, proxy_connected (fun w => (w, 4))
          (steam_set_steam_guard_token_cb (onLogOn sample_pump .AccountLogonDenied ⟨10⟩) 0 "K7XQ2")
          5 = .ok opened
        ∧ (opened.steam.watcher, 5) ∈ opened.inputs
        ∧ opened.log.getLast? = some (.purple_input_add 5) :=
  ⟨by decide,
    (step_up_closes_then_reconnects_with_code sample_pump ⟨10⟩ 0 "K7XQ2").2.2.2.2.2.1
      (fun w => (w, 4)) 5 (by decide)⟩

theorem logon_ok_own_identity (w : World κ) (steamID : SteamID) (h : steamID.steamID64 < 2 ^ 64) :
    g_ascii_strtoull (onLogOn w .OK steamID).pc.display_name = steamID.steamID64 :=
  g_ascii_strtoull_steamID_string steamID h

/-! ## Reads of zero bytes and read errors -/

/-- C10 (amended): in every state, a read of zero bytes and a read that reports an
error both fail the handler's `assert(len > 0)`; the handler has no path for an
orderly close. -/
theorem read_watcher_asserts_positive_length (readable : World κ → List Byte → World κ × Nat)
    (w : World κ) :
    readWatcher readable w (.bytes []) = .error (.assertion "len > 0")
    ∧ readWatcher readable w .error = .error (.assertion "len > 0") := by
  simp [readWatcher]


/-- C10 (counterexample): while a frame of four bytes is expected, a read of zero
bytes makes the handler fail its assertion. -/
theorem zero_byte_read_aborts :
    readWatcher sample_readable sample_pump (.bytes [])
      = .error (.assertion "len > 0") := by
  rfl

/-! ## Membership changes -/

/-- C5: for a membership change other than `Entered` whose acted-on identity is the
session's own (the identity read back from the connection's display name, as the
handler does), `onChatStateChange` makes exactly one call, `serv_got_chat_left` for
the room's chat id: no chat user is removed, and the buddy list is untouched. -/
theorem self_removal_reports_chat_left (w : World κ) (room acted_by acted_on : SteamID)
    (state_change : EChatMemberStateChange) (hchange : state_change ≠ .Entered)
    (hself : acted_on.steamID64 = g_ascii_strtoull w.pc.display_name) :
    (onChatStateChange w room acted_by acted_on state_change).log
        = w.log ++ [.serv_got_chat_left room.ID]
    ∧ (onChatStateChange w room acted_by acted_on state_change).blist = w.blist
    ∧ (onChatStateChange w room acted_by acted_on state_change).chats
        = serv_got_chat_left w.chats room.ID
    ∧ ((onChatStateChange w room acted_by acted_on state_change).chats.chats.map fun c => c.in_room)
        = w.chats.chats.map fun c => c.in_room := by
  have h : onChatStateChange w room acted_by acted_on state_change = w.got_chat_left room.ID := by
    simp only [onChatStateChange, if_neg hchange, if_pos hself]
  rw [h]
  refine ⟨rfl, rfl, rfl, ?_⟩
  simp only [World.got_chat_left, serv_got_chat_left]
  split
  · rfl
  · simp only [Chats.update, List.map_map]
    apply List.map_congr_left
    intro c _
    simp only [Function.comp]
    split <;> rfl


theorem self_removal_reports_chat_left_witness :
    EChatMemberStateChange.Kicked ≠ .Entered
    ∧ (⟨10⟩ : SteamID).steamID64 = g_ascii_strtoull sample_chat.pc.display_name
    ∧ (onChatStateChange sample_chat sample_room ⟨1⟩ ⟨10⟩ .Kicked).log
        = sample_chat.log ++ [.serv_got_chat_left sample_room.ID] :=
  ⟨by decide, by decide,
    (self_removal_reports_chat_left sample_chat sample_room ⟨1⟩ ⟨10⟩ .Kicked (by decide)
      (by decide)).1⟩

theorem find_chat_update (chats : List PurpleConversation) (p id : Nat)
    (f : PurpleConversation → PurpleConversation) (hf : ∀ c, (f c).id = c.id) :
    (chats.map fun c => if c.ptr = p then f c else c).find? (fun c => c.id = id)
      = (chats.find? fun c => c.id = id).map fun c => if c.ptr = p then f c else c := by
  induction chats with
  | nil => rfl
  | cons c cs ih =>
    by_cases hp : c.ptr = p <;> by_cases hc : c.id = id <;> simp [List.find?, hp, hc, hf, ih]

theorem filter_update_other (chats : List PurpleConversation) (p : Nat)
    (f : PurpleConversation → PurpleConversation) (hf : ∀ c, (f c).ptr = c.ptr) :
    (chats.map fun c => if c.ptr = p then f c else c).filter (fun x => x.ptr ≠ p)
      = chats.filter (fun x => x.ptr ≠ p) := by
  induction chats with
  | nil => rfl
  | cons c cs ih =>
    by_cases hp : c.ptr = p
    · simp only [List.map_cons, hp, if_true, List.filter, hf, ne_eq, not_true_eq_false,
        decide_False]
      exact ih
    · simp only [List.map_cons, hp, if_false, List.filter, ne_eq, not_false_eq_true,
        decide_True]
      rw [ih]

theorem find_name_update (chats : List PurpleConversation) (p : Nat) (name : String)
    (f : PurpleConversation → PurpleConversation) (hf : ∀ c, (f c).name = c.name) :
    (chats.map fun c => if c.ptr = p then f c else c).find? (fun c => c.name = name)
      = (chats.find? fun c => c.name = name).map fun c => if c.ptr = p then f c else c := by
  induction chats with
  | nil => rfl
  | cons c cs ih =>
    by_cases hp : c.ptr = p <;> by_cases hc : c.name = name <;> simp [List.find?, hp, hc, hf, ih]

/-- C8 (amended): for an existing room whose conversation `c`, the one registered
under the decimal rendering of the room's 64-bit identifier, is also the conversation
that the host finds under the room's 32-bit chat id, an `Entered` change for
`acted_on` puts the name of `acted_on` into that conversation's user list, so the
room's membership set becomes the old one plus `acted_on`; the conversations with
another identity, the connection's chat list and the buddy list are unchanged. -/
theorem entered_adds_member (w : World κ) (room acted_by acted_on : SteamID)
    (c : PurpleConversation)
    (hconv : purple_find_conversation_with_account w.chats (steamID_string room) = some c)
    (hroom : purple_find_chat w.chats room.ID = some c) :
    purple_find_conversation_with_account
        (onChatStateChange w room acted_by acted_on .Entered).chats (steamID_string room)
        = some { c with in_room := steamID_string acted_on :: c.in_room }
    ∧ purple_find_chat (onChatStateChange w room acted_by acted_on .Entered).chats room.ID
        = some { c with in_room := steamID_string acted_on :: c.in_room }
    ∧ (∀ x, x ∈ steamID_string acted_on :: c.in_room ↔ x ∈ c.in_room ∨ x = steamID_string acted_on)
    ∧ (onChatStateChange w room acted_by acted_on .Entered).chats.chats
        = w.chats.chats.map (fun x =>
            if x.ptr = c.ptr then { x with in_room := steamID_string acted_on :: x.in_room } else x)
    ∧ (onChatStateChange w room acted_by acted_on .Entered).chats.chats.filter
          (fun x => x.ptr ≠ c.ptr)
        = w.chats.chats.filter (fun x => x.ptr ≠ c.ptr)
    ∧ (onChatStateChange w room acted_by acted_on .Entered).chats.buddy_chats
        = w.chats.buddy_chats
    ∧ (onChatStateChange w room acted_by acted_on .Entered).blist = w.blist := by
  have hchats : (onChatStateChange w room acted_by acted_on .Entered).chats.chats
      = w.chats.chats.map (fun x =>
          if x.ptr = c.ptr then { x with in_room := steamID_string acted_on :: x.in_room }
          else x) := by
    simp only [onChatStateChange, if_true, hroom, World.chat_add_user, Option.map_some',
      purple_conv_chat_add_user, Chats.update]
  refine ⟨?_, ?_, ?_, hchats, ?_, ?_, ?_⟩
  · unfold purple_find_conversation_with_account at hconv ⊢
    rw [hchats, find_name_update w.chats.chats c.ptr (steamID_string room)
      (fun x => { x with in_room := steamID_string acted_on :: x.in_room }) (fun _ => rfl), hconv]
    simp
  · unfold purple_find_chat at hroom ⊢
    rw [hchats, find_chat_update w.chats.chats c.ptr room.ID
      (fun x => { x with in_room := steamID_string acted_on :: x.in_room }) (fun _ => rfl), hroom]
    simp
  · intro x
    simp [or_comm]
  · rw [hchats]
    exact filter_update_other w.chats.chats c.ptr
      (fun x => { x with in_room := steamID_string acted_on :: x.in_room }) (fun _ => rfl)
  · simp only [onChatStateChange, if_true, hroom, World.chat_add_user, Option.map_some',
      purple_conv_chat_add_user, Chats.update]
  · simp only [onChatStateChange, if_true, World.chat_add_user]


theorem entered_adds_member_witness :
    (purple_find_conversation_with_account sample_chat.chats (steamID_string sample_room)
        = some sample_conversation
      ∧ purple_find_chat sample_chat.chats sample_room.ID = some sample_conversation)
    ∧ purple_find_conversation_with_account
        (onChatStateChange sample_chat sample_room ⟨12⟩ ⟨12⟩ .Entered).chats
        (steamID_string sample_room)
      = some { sample_conversation with in_room := ["12", "10", "11"] } :=
  ⟨⟨by decide, by decide⟩,
    (entered_adds_member sample_chat sample_room ⟨12⟩ ⟨12⟩ sample_conversation (by decide)
      (by decide)).1⟩

/-- C8 (counterexample): the sample room and the sample clan room are different rooms
with the same 32-bit chat id; the session has entered both.  An `Entered` change for
the identity 12 on the sample room puts 12 into the user list of the clan room's
conversation, and the sample room's membership set stays `{10}`. -/
theorem entered_changes_room_sharing_chat_id :
    sample_room ≠ sample_clan_room
    ∧ sample_room.ID = sample_clan_room.ID
    ∧ (sample_two_rooms.chats.chats.map fun c => (c.name, c.id, c.in_room))
        = [(steamID_string sample_clan_room, 77, ["11"]), (steamID_string sample_room, 77, ["10"])]
    ∧ ((onChatStateChange sample_two_rooms sample_room ⟨12⟩ ⟨12⟩ .Entered).chats.chats.map
          fun c => (c.name, c.id, c.in_room))
        = [(steamID_string sample_clan_room, 77, ["12", "11"]),
            (steamID_string sample_room, 77, ["10"])]
    ∧ (purple_find_conversation_with_account
          (onChatStateChange sample_two_rooms sample_room ⟨12⟩ ⟨12⟩ .Entered).chats
          (steamID_string sample_room)).map (fun c => c.in_room) = some ["10"] := by
  decide

/-! ## Leaving a chat room -/

theorem lookup_filter_ne (index : List (BuddyKey × Nat)) (k k0 : BuddyKey) (h : k ≠ k0) :
    (index.filter fun e => e.1 ≠ k0).lookup k = index.lookup k := by
  induction index with
  | nil => rfl
  | cons e es ih =>
    obtain ⟨ek, ev⟩ := e
    by_cases he : ek = k0
    · subst he
      have hk : (k == ek) = false := by simpa using h
      rw [List.filter_cons_of_neg (by simp), List.lookup_cons, hk]
      exact ih
    · rw [List.filter_cons_of_pos (by simpa using he), List.lookup_cons, List.lookup_cons, ih]

theorem remove_buddy_groups (bl : BuddyList) (x : Option Nat) :
    (purple_blist_remove_buddy bl x).groups = bl.groups := by
  unfold purple_blist_remove_buddy
  split
  · rfl
  · split <;> rfl

theorem remove_buddy_subset (bl : BuddyList) (x : Option Nat) :
    ∀ b ∈ (purple_blist_remove_buddy bl x).buddies, b ∈ bl.buddies := by
  intro b hb
  unfold purple_blist_remove_buddy at hb
  split at hb
  · exact hb
  · split at hb
    · exact hb
    · exact List.mem_of_mem_filter hb

theorem remove_buddy_indexed (g : String) (bl : BuddyList) (x : Option Nat)
    (h : group_indexed g bl) : group_indexed g (purple_blist_remove_buddy bl x) := by
  unfold purple_blist_remove_buddy
  split
  · exact h
  · rename_i p
    split
    · exact h
    · rename_i b0 hb0
      intro b hb hg
      simp only [List.mem_filter, decide_eq_true_eq] at hb
      obtain ⟨hmem, hptr⟩ := hb
      obtain ⟨hgl, hlook⟩ := h b hmem hg
      refine ⟨hgl, ?_⟩
      have hb0mem : b0 ∈ bl.buddies := List.mem_of_find?_eq_some hb0
      have hb0ptr : b0.ptr = p := by
        have := List.find?_some hb0
        simpa using this
      have hne : b.key ≠ b0.key := by
        intro hk
        have hg0 : b0.group = g := by
          have : b.key.group = b0.key.group := by rw [hk]
          simp only [PurpleBuddy.key] at this
          rw [← this, hg]
        have hl0 := (h b0 hb0mem hg0).2
        rw [← hk, hlook] at hl0
        simp only [Option.some.injEq] at hl0
        exact hptr (by rw [hl0, hb0ptr])
      simp only
      rw [lookup_filter_ne _ _ _ hne]
      exact hlook

theorem remove_alias_gone (account : Nat) (g : String) (bl : BuddyList) (m : String)
    (h : group_indexed g bl) :
    ∀ b ∈ (remove_alias account g bl m).buddies, b.group = g → b.account = account → b.name ≠ m := by
  intro b hb hg hacc hname
  have hmem : b ∈ bl.buddies := remove_buddy_subset _ _ b hb
  obtain ⟨hgl, hlook⟩ := h b hmem hg
  have hkey : b.key = ⟨account, m, g⟩ := by
    simp [PurpleBuddy.key, hg, hacc, hname]
  have hfind : purple_find_buddy_in_group bl account m (purple_find_group bl (some g))
      = some b.ptr := by
    simp only [purple_find_group, hgl, if_true, purple_find_buddy_in_group]
    rw [← hkey]
    exact hlook
  unfold remove_alias at hb
  rw [hfind] at hb
  unfold purple_blist_remove_buddy at hb
  simp only at hb
  split at hb
  · rename_i hnone
    have := List.find?_eq_none.mp hnone b hmem
    simp at this
  · simp at hb

theorem remove_aliases_spec (account : Nat) (g : String) (users : List String) (bl : BuddyList)
    (h : group_indexed g bl) :
    group_indexed g (users.foldl (remove_alias account g) bl)
    ∧ (users.foldl (remove_alias account g) bl).groups = bl.groups
    ∧ (∀ b ∈ (users.foldl (remove_alias account g) bl).buddies, b ∈ bl.buddies)
    ∧ ∀ b ∈ (users.foldl (remove_alias account g) bl).buddies,
        b.group = g → b.account = account → b.name ∉ users := by
  induction users generalizing bl with
  | nil => exact ⟨h, rfl, fun _ hb => hb, fun _ _ _ _ hn => by simp at hn⟩
  | cons m ms ih =>
    have h1 : group_indexed g (remove_alias account g bl m) := remove_buddy_indexed g bl _ h
    obtain ⟨i1, i2, i3, i4⟩ := ih (remove_alias account g bl m) h1
    refine ⟨i1, ?_, ?_, ?_⟩
    · simp only [List.foldl]
      rw [i2]
      exact remove_buddy_groups _ _
    · intro b hb
      exact remove_buddy_subset _ _ b (i3 b hb)
    · intro b hb hg hacc hn
      simp only [List.foldl] at hb
      rcases List.mem_cons.mp hn with hm | hm
      · exact remove_alias_gone account g bl m h b (i3 b hb) hg hacc hm
      · exact i4 b hb hg hacc hm

theorem leave_loop_spec (g : String) (users : List String) (w : World κ) :
    (users.foldl
        (fun acc chat_buddy =>
          acc.blist_remove_buddy
            (purple_find_buddy_in_group acc.blist acc.account.id chat_buddy
              (purple_find_group acc.blist (some g))))
        w).blist = users.foldl (remove_alias w.account.id g) w.blist
    ∧ ∃ removed : List (Option Nat), removed.length = users.length
      ∧ (users.foldl
          (fun acc chat_buddy =>
            acc.blist_remove_buddy
              (purple_find_buddy_in_group acc.blist acc.account.id chat_buddy
                (purple_find_group acc.blist (some g))))
          w).log = w.log ++ removed.map Call.purple_blist_remove_buddy := by
  induction users generalizing w with
  | nil => exact ⟨rfl, [], rfl, by simp⟩
  | cons m ms ih =>
    obtain ⟨h1, removed, hlen, hlog⟩ := ih (w.blist_remove_buddy
      (purple_find_buddy_in_group w.blist w.account.id m (purple_find_group w.blist (some g))))
    refine ⟨?_, ?_⟩
    · simp only [List.foldl]
      rw [h1]
      rfl
    · refine ⟨purple_find_buddy_in_group w.blist w.account.id m
        (purple_find_group w.blist (some g)) :: removed, by simp [hlen], ?_⟩
      simp only [List.foldl]
      rw [hlog]
      simp [World.blist_remove_buddy]

/-- What the loop of `steam_chat_leave` does achieve: the function sends the leave
request, then makes one buddy-removal call per chat user, and only then its single
group-removal call.  When the group's nodes are well linked, no alias record of a
listed member is left in the group at the moment of the group-removal call; when in
addition the group held only alias records of listed members, the group is empty at
that moment and is removed. -/
theorem chat_leave_removes_member_aliases_first (w : World κ) (id : Nat)
    (c : PurpleConversation) (hchat : purple_find_chat w.chats id = some c) :
    (∃ removed : List (Option Nat), removed.length = c.in_room.length
      ∧ (steam_chat_leave_aliases w id).log
          = w.log ++ [Call.LeaveChat (g_ascii_strtoull (some c.name))]
            ++ removed.map Call.purple_blist_remove_buddy
      ∧ (steam_chat_leave w id).log
          = (steam_chat_leave_aliases w id).log
            ++ [Call.purple_blist_remove_group
              ((purple_find_group w.blist (some c.name)).map PurpleGroup.name)])
    ∧ (group_indexed c.name w.blist →
        (∀ b ∈ (steam_chat_leave_aliases w id).blist.buddies,
          b.group = c.name → b.account = w.account.id → b.name ∉ c.in_room)
        ∧ ((∀ b ∈ w.blist.buddies, b.group = c.name →
              b.account = w.account.id ∧ b.name ∈ c.in_room) →
            (∀ b ∈ (steam_chat_leave_aliases w id).blist.buddies, b.group ≠ c.name)
            ∧ c.name ∉ (steam_chat_leave w id).blist.groups)) := by
  obtain ⟨hbl, removed, hlen, hlog⟩ := leave_loop_spec c.name c.in_room
    (w.call (.LeaveChat (g_ascii_strtoull (some c.name))))
  have hstage : (steam_chat_leave_aliases w id).blist
      = c.in_room.foldl (remove_alias w.account.id c.name) w.blist := by
    simp only [steam_chat_leave_aliases, hchat, Option.map_some']
    exact hbl
  have hstagelog : (steam_chat_leave_aliases w id).log
      = w.log ++ [Call.LeaveChat (g_ascii_strtoull (some c.name))]
        ++ removed.map Call.purple_blist_remove_buddy := by
    simp only [steam_chat_leave_aliases, hchat, Option.map_some']
    exact hlog
  have hgroups : (steam_chat_leave_aliases w id).blist.groups = w.blist.groups := by
    rw [hstage]
    clear hbl hstage hlog hstagelog
    generalize w.blist = bl
    induction c.in_room generalizing bl with
    | nil => rfl
    | cons m ms ih =>
      simp only [List.foldl]
      rw [ih]
      exact remove_buddy_groups _ _
  have hfg : purple_find_group (steam_chat_leave_aliases w id).blist (some c.name)
      = purple_find_group w.blist (some c.name) := by
    simp only [purple_find_group, hgroups]
  refine ⟨⟨removed, hlen, hstagelog, ?_⟩, ?_⟩
  · simp only [steam_chat_leave, hchat, Option.map_some', World.blist_remove_group, hfg]
  · intro hidx
    obtain ⟨i1, i2, i3, i4⟩ := remove_aliases_spec w.account.id c.name c.in_room w.blist hidx
    rw [← hstage] at i1 i2 i3 i4
    refine ⟨i4, fun honly => ?_⟩
    have hempty : ∀ b ∈ (steam_chat_leave_aliases w id).blist.buddies, b.group ≠ c.name := by
      intro b hb hg
      obtain ⟨hacc, hname⟩ := honly b (i3 b hb) hg
      exact i4 b hb hg hacc hname
    refine ⟨hempty, ?_⟩
    simp only [steam_chat_leave, hchat, Option.map_some', World.blist_remove_group]
    unfold purple_blist_remove_group
    split
    · rename_i hnone
      simp only [purple_find_group, hgroups] at hnone
      split at hnone
      · cases hnone
      · rename_i hnot
        rw [hgroups]
        exact hnot
    · rename_i grp hsome
      have hname : grp.name = c.name := by
        simp only [purple_find_group] at hsome
        split at hsome
        · cases hsome
          rfl
        · cases hsome
      have hany : (steam_chat_leave_aliases w id).blist.buddies.any
          (fun b => b.group = grp.name) = false := by
        rw [List.any_eq_false]
        intro b hb
        simpa [hname] using hempty b hb
      rw [hany]
      simp [hname]


theorem chat_leave_removes_member_aliases_first_witness :
    purple_find_chat sample_chat.chats sample_room.ID = some sample_conversation
    ∧ group_indexed sample_conversation.name sample_chat.blist
    ∧ (∀ b ∈ sample_chat.blist.buddies, b.group = sample_conversation.name →
        b.account = sample_chat.account.id ∧ b.name ∈ sample_conversation.in_room)
    ∧ sample_conversation.name ∉ (steam_chat_leave sample_chat sample_room.ID).blist.groups :=
  have hidx : group_indexed sample_conversation.name sample_chat.blist := by
    unfold group_indexed
    decide
  have honly : ∀ b ∈ sample_chat.blist.buddies, b.group = sample_conversation.name →
      b.account = sample_chat.account.id ∧ b.name ∈ sample_conversation.in_room := by
    decide
  ⟨by decide, hidx, honly,
    (((chat_leave_removes_member_aliases_first sample_chat sample_room.ID sample_conversation
      (by decide)).2 hidx).2 honly).2⟩

/-- C6 (defect in the code): the loop of `steam_chat_leave` is meant to "clear the
alias storage group" because "you can't remove a non-empty group", but it walks the
chat's current users, not the group's buddies.  The session is kicked from the room
while the alias record of member 11 is in the auxiliary group, enters the room again
with the members 10 and 12, and leaves.  At the moment of the group-removal call the
alias record of 11 is still in the group: the removal is attempted on a non-empty
group, and the group stays. -/
theorem chat_leave_attempts_removal_of_nonempty_group :
    ((steam_chat_leave_aliases sample_rejoined sample_room.ID).blist.buddies.filter
        fun b => b.group = steamID_string sample_room) ≠ []
    ∧ ((steam_chat_leave_aliases sample_rejoined sample_room.ID).blist.buddies.map
        fun b => (b.name, b.group)) = [("11", steamID_string sample_room)]
    ∧ (steam_chat_leave sample_rejoined sample_room.ID).log.getLast?
        = some (.purple_blist_remove_group (some (steamID_string sample_room)))
    ∧ steamID_string sample_room ∈
        (steam_chat_leave sample_rejoined sample_room.ID).blist.groups := by
  decide

/-! ## Well-linked buddy lists -/

theorem steamID_string_ne_Buddies (s : SteamID) : steamID_string s ≠ "Buddies" := by
  obtain ⟨d, hd, rest, hrest⟩ := toDigitsCore_head (s.steamID64 + 1) s.steamID64 [] (by omega)
  intro h
  have hdata : (steamID_string s).data = Nat.digitChar d :: rest := hrest
  rw [h] at hdata
  have hB : Nat.digitChar d = 'B' := by
    have := congrArg List.head? hdata
    simpa using this.symm
  interval_cases d <;> exact absurd hB (by decide)

theorem add_buddy_indexed_other (g : String) (bl : BuddyList) (account : Nat) (name : String)
    (group : Option PurpleGroup) (hg : g ≠ add_buddy_group group) (h : group_indexed g bl) :
    group_indexed g (purple_blist_add_buddy bl account name group) := by
  intro b hb hbg
  simp only [purple_blist_add_buddy, List.mem_append, List.mem_singleton] at hb
  rcases hb with hb | hb
  · obtain ⟨h1, h2⟩ := h b hb hbg
    refine ⟨?_, ?_⟩
    · simp only [purple_blist_add_buddy]
      split
      · exact h1
      · exact List.mem_append_left _ h1
    · simp only [purple_blist_add_buddy]
      have hne : b.key ≠ ⟨account, name, add_buddy_group group⟩ := by
        intro hk
        have : b.key.group = add_buddy_group group := by rw [hk]
        simp only [PurpleBuddy.key] at this
        exact hg (by rw [← hbg, this])
      have hbeq : (b.key == (⟨account, name, add_buddy_group group⟩ : BuddyKey)) = false := by
        simpa using hne
      rw [List.lookup_cons, hbeq, lookup_filter_ne _ _ _ hne]
      exact h2
  · exfalso
    subst hb
    exact hg hbg.symm

theorem add_buddy_indexed_guarded (g : String) (bl : BuddyList) (account : Nat) (name : String)
    (h : group_indexed g bl)
    (hguard : purple_find_buddy_in_group bl account name (some (purple_group_new bl g)) = none) :
    group_indexed g (purple_blist_add_buddy bl account name (some (purple_group_new bl g))) := by
  have hname : add_buddy_group (some (purple_group_new bl g)) = g := by
    simp only [add_buddy_group, purple_group_new]
    split <;> rfl
  intro b hb hbg
  refine ⟨?_, ?_⟩
  · simp only [purple_blist_add_buddy, hname]
    split
    · assumption
    · simp
  · simp only [purple_blist_add_buddy, hname, List.mem_append, List.mem_singleton] at hb ⊢
    rcases hb with hb | hb
    · obtain ⟨h1, h2⟩ := h b hb hbg
      have hne : b.key ≠ ⟨account, name, g⟩ := by
        intro hk
        have hl : purple_find_buddy_in_group bl account name (some (purple_group_new bl g))
            = bl.index.lookup ⟨account, name, g⟩ := by
          simp only [purple_group_new, h1, if_true, purple_find_buddy_in_group]
        rw [hl, ← hk, h2] at hguard
        cases hguard
      have hbeq : (b.key == (⟨account, name, g⟩ : BuddyKey)) = false := by simpa using hne
      rw [List.lookup_cons, hbeq, lookup_filter_ne _ _ _ hne]
      exact h2
    · subst hb
      simp [PurpleBuddy.key, List.lookup_cons]

theorem remove_group_indexed (g : String) (bl : BuddyList) (x : Option PurpleGroup)
    (h : group_indexed g bl) : group_indexed g (purple_blist_remove_group bl x) := by
  unfold purple_blist_remove_group
  split
  · exact h
  · rename_i grp
    split
    · exact h
    · rename_i hany
      intro b hb hbg
      obtain ⟨h1, h2⟩ := h b hb hbg
      refine ⟨?_, h2⟩
      simp only [List.mem_filter, decide_eq_true_eq]
      refine ⟨h1, fun hgn => hany ?_⟩
      rw [List.any_eq_true]
      exact ⟨b, hb, by simp [hbg, hgn]⟩

theorem foldl_remove_indexed (g : String) (ptrs : List Nat) (w : World κ)
    (h : group_indexed g w.blist) :
    group_indexed g
      (ptrs.foldl (fun acc b => acc.blist_remove_buddy (some b)) w).blist := by
  induction ptrs generalizing w with
  | nil => exact h
  | cons p ps ih => exact ih _ (remove_buddy_indexed g w.blist (some p) h)

theorem apply_relationship_well_linked (w : World κ) (entry : SteamID × EFriendRelationship)
    (h : well_linked w.blist) : well_linked (apply_relationship w entry).blist := by
  intro g hg
  obtain ⟨user, relationship⟩ := entry
  cases relationship with
  | None => exact remove_buddy_indexed g w.blist _ (h g hg)
  | Friend => exact add_buddy_indexed_other g w.blist _ _ none hg (h g hg)
  | RequestRecipient => exact h g hg
  | RequestInitiator => exact h g hg
  | other code => exact h g hg

theorem foldl_apply_relationship_well_linked (entries : List (SteamID × EFriendRelationship))
    (w : World κ) (h : well_linked w.blist) :
    well_linked (entries.foldl apply_relationship w).blist := by
  induction entries generalizing w with
  | nil => exact h
  | cons e es ih => exact ih _ (apply_relationship_well_linked w e h)

theorem onUserInfo_blist (w : World κ) (user : SteamID) (source : Option SteamID)
    (name : Option String) (state : Option EPersonaState) :
    (onUserInfo w user source name state).blist
      = (match source with
        | none => w
        | some src =>
          if src.type = EAccountType_Chat then
            if purple_find_buddy_in_group w.blist w.account.id (steamID_string user)
                (some (purple_group_new w.blist (steamID_string src))) = none then
              w.blist_add_buddy (steamID_string user)
                (some (purple_group_new w.blist (steamID_string src)))
            else w
          else w).blist := by
  simp only [onUserInfo]
  cases name <;> cases state <;> simp only [World.call] <;> split_ifs <;> rfl

/-- Every callback keeps the buddy list well linked. -/
theorem dispatch_well_linked (w : World κ) (e : Event) (h : well_linked w.blist) :
    well_linked (dispatch w e).blist := by
  cases e with
  | handshake =>
    simp only [dispatch, onHandshake]
    split
    · split <;> exact h
    · exact h
  | logOn result steamID =>
    cases result <;> exact h
  | sentry hash => exact h
  | userInfo user source name state =>
    simp only [dispatch]
    rw [onUserInfo_blist]
    cases source with
    | none => exact h
    | some src =>
      simp only
      split_ifs with htype hguard
      · intro g hg
        by_cases hgs : g = steamID_string src
        · subst hgs
          exact add_buddy_indexed_guarded _ w.blist _ _ (h _ hg) hguard
        · refine add_buddy_indexed_other g w.blist _ _ _ ?_ (h g hg)
          simp only [add_buddy_group, purple_group_new]
          split_ifs <;> exact hgs
      · exact h
      · exact h
  | chatEnter room response name members =>
    cases response with
    | Success =>
      simp only [dispatch, onChatEnter]
      rw [(foldl_chat_add_user members.reverse _ _).1]
      exact h
    | other code => exact h
  | chatStateChange room acted_by acted_on state_change =>
    simp only [dispatch, onChatStateChange]
    split_ifs
    · exact h
    · exact h
    · intro g hg
      exact remove_buddy_indexed g _ _ (h g hg)
  | chatMsg room chatter message => exact h
  | privateMsg user message => exact h
  | typing user => exact h
  | relationships incremental entries =>
    simp only [dispatch, onRelationships]
    apply foldl_apply_relationship_well_linked
    cases incremental with
    | true => exact h
    | false =>
      intro g hg
      exact foldl_remove_indexed g _ w (h g hg)

theorem foldl_remove_found_indexed (g : String) (chat_name : Option String)
    (users : List String) (w : World κ) (h : group_indexed g w.blist) :
    group_indexed g
      (users.foldl
        (fun acc chat_buddy =>
          acc.blist_remove_buddy
            (purple_find_buddy_in_group acc.blist acc.account.id chat_buddy
              (purple_find_group acc.blist chat_name)))
        w).blist := by
  induction users generalizing w with
  | nil => exact h
  | cons m ms ih => exact ih _ (remove_buddy_indexed g w.blist _ h)

/-- Leaving a chat keeps the buddy list well linked. -/
theorem steam_chat_leave_well_linked (w : World κ) (id : Nat) (h : well_linked w.blist) :
    well_linked (steam_chat_leave w id).blist := by
  intro g hg
  simp only [steam_chat_leave, World.blist_remove_group]
  apply remove_group_indexed
  simp only [steam_chat_leave_aliases]
  exact foldl_remove_found_indexed g _ _ _ (h g hg)


/-- From a well-linked buddy list, whatever the callbacks and host requests that
follow, the buddy nodes of the group named by a room's identifier stay well linked. -/
theorem chat_groups_stay_indexed (actions : List Action) (w : World κ) (room : SteamID)
    (h : well_linked w.blist) :
    group_indexed (steamID_string room) (actions.foldl act w).blist := by
  have hall : well_linked (actions.foldl act w).blist := by
    induction actions generalizing w with
    | nil => exact h
    | cons a as ih =>
      apply ih
      cases a with
      | callback e => exact dispatch_well_linked w e h
      | chat_leave id => exact steam_chat_leave_well_linked w id h
      | guard_token endpoint steam_guard_token => exact h
  exact hall _ (steamID_string_ne_Buddies room)

theorem chat_groups_stay_indexed_witness :
    well_linked sample_world.blist
    ∧ group_indexed (steamID_string sample_room)
        ([Action.callback (.chatEnter sample_room .Success "Room" [⟨10⟩]),
          Action.callback (.userInfo ⟨10⟩ (some sample_room) none none),
          Action.chat_leave 77].foldl act sample_world).blist :=
  have h : well_linked sample_world.blist := by
    intro g _ b hb
    cases hb
  ⟨h, chat_groups_stay_indexed _ sample_world sample_room h⟩

/-! ## The guarded add of `onUserInfo` -/

theorem add_buddy_group_new (bl : BuddyList) (g : String) :
    add_buddy_group (some (purple_group_new bl g)) = g := by
  simp only [add_buddy_group, purple_group_new]
  split <;> rfl

theorem find_after_add (bl : BuddyList) (account : Nat) (name g : String) :
    purple_find_buddy_in_group
      (purple_blist_add_buddy bl account name (some (purple_group_new bl g))) account name
      (some (purple_group_new
        (purple_blist_add_buddy bl account name (some (purple_group_new bl g))) g))
      = some bl.next := by
  have hname := add_buddy_group_new bl g
  have hmem : g ∈ (purple_blist_add_buddy bl account name (some (purple_group_new bl g))).groups := by
    simp only [purple_blist_add_buddy, hname]
    split
    · assumption
    · simp
  have hnew : purple_group_new
      (purple_blist_add_buddy bl account name (some (purple_group_new bl g))) g = .listed g := by
    unfold purple_group_new at hmem ⊢
    rw [if_pos hmem]
  rw [hnew]
  simp only [purple_find_buddy_in_group, purple_blist_add_buddy, hname, List.lookup_cons,
    beq_self_eq_true]

theorem onUserInfo_account (w : World κ) (user : SteamID) (source : Option SteamID)
    (name : Option String) (state : Option EPersonaState) :
    (onUserInfo w user source name state).account = w.account := by
  simp only [onUserInfo]
  cases source <;> cases name <;> cases state <;> simp only [World.call, World.blist_add_buddy]
    <;> split_ifs <;> rfl

/-- The sibling path: `onUserInfo` tests `purple_find_buddy_in_group` before it adds,
so a second user-info event for the same user and chat room links no second node. -/
theorem user_info_again_links_no_node (w : World κ) (user room : SteamID)
    (name name2 : Option String) (state state2 : Option EPersonaState) :
    (onUserInfo (onUserInfo w user (some room) name state) user (some room) name2 state2).blist
      = (onUserInfo w user (some room) name state).blist := by
  have h1 := onUserInfo_blist w user (some room) name state
  have h2 := onUserInfo_blist (onUserInfo w user (some room) name state) user (some room)
    name2 state2
  rw [onUserInfo_account] at h2
  rw [h2]
  simp only at h1 ⊢
  by_cases htype : room.type = EAccountType_Chat
  · simp only [htype, if_true] at h1 ⊢
    by_cases hguard : purple_find_buddy_in_group w.blist w.account.id (steamID_string user)
        (some (purple_group_new w.blist (steamID_string room))) = none
    · simp only [hguard, if_true] at h1
      have hfound := find_after_add w.blist w.account.id (steamID_string user)
        (steamID_string room)
      rw [h1]
      simp only [World.blist_add_buddy]
      rw [hfound]
      simp only [reduceCtorEq, if_false]
      exact h1
    · split_ifs with h3
      · simp only [hguard, if_false] at h1
        rw [h1] at h3
        exact absurd h3 hguard
      · rfl
  · simp only [htype, if_false]

/-! ## The order of effects of a relationship snapshot -/

theorem foldl_apply_relationship_log (entries : List (SteamID × EFriendRelationship))
    (w : World κ) :
    ∃ applied : List Call,
      (entries.foldl apply_relationship w).log = w.log ++ applied
      ∧ ∀ c ∈ applied, c.applies_entry = true := by
  induction entries generalizing w with
  | nil => exact ⟨[], by simp, by simp⟩
  | cons e es ih =>
    obtain ⟨applied, hlog, hall⟩ := ih (apply_relationship w e)
    obtain ⟨user, relationship⟩ := e
    simp only [List.foldl]
    rw [hlog]
    cases relationship with
    | None =>
      refine ⟨Call.purple_blist_remove_buddy
        (purple_find_buddy w.blist w.account.id (steamID_string user)) :: applied,
        by simp [apply_relationship, World.blist_remove_buddy], ?_⟩
      intro c hc
      rcases List.mem_cons.mp hc with h | h
      · subst h
        rfl
      · exact hall c h
    | Friend =>
      refine ⟨Call.purple_blist_add_buddy (steamID_string user) none :: applied,
        by simp [apply_relationship, World.blist_add_buddy], ?_⟩
      intro c hc
      rcases List.mem_cons.mp hc with h | h
      · subst h
        rfl
      · exact hall c h
    | RequestRecipient => exact ⟨applied, rfl, hall⟩
    | RequestInitiator => exact ⟨applied, rfl, hall⟩
    | other code => exact ⟨applied, rfl, hall⟩

theorem foldl_remove_log (ptrs : List Nat) (w : World κ) :
    (ptrs.foldl (fun acc b => acc.blist_remove_buddy (some b)) w).log
      = w.log ++ ptrs.map fun b => Call.purple_blist_remove_buddy (some b) := by
  induction ptrs generalizing w with
  | nil => simp
  | cons p ps ih =>
    simp only [List.foldl, List.map_cons]
    rw [ih]
    simp [World.blist_remove_buddy]

theorem remove_buddy_drops_ptr (bl : BuddyList) (p : Nat) :
    ∀ b ∈ (purple_blist_remove_buddy bl (some p)).buddies, b ∈ bl.buddies ∧ b.ptr ≠ p := by
  intro b hb
  unfold purple_blist_remove_buddy at hb
  simp only at hb
  split at hb
  · rename_i hnone
    refine ⟨hb, fun hp => ?_⟩
    have := List.find?_eq_none.mp hnone b hb
    simp [hp] at this
  · simpa using hb

theorem foldl_remove_drops (ptrs : List Nat) (w : World κ) :
    ∀ b ∈ (ptrs.foldl (fun acc b => acc.blist_remove_buddy (some b)) w).blist.buddies,
      b ∈ w.blist.buddies ∧ b.ptr ∉ ptrs := by
  induction ptrs generalizing w with
  | nil => intro b hb; exact ⟨hb, by simp⟩
  | cons p ps ih =>
    intro b hb
    obtain ⟨h1, h2⟩ := ih (w.blist_remove_buddy (some p)) b hb
    obtain ⟨h3, h4⟩ := remove_buddy_drops_ptr w.blist p b h1
    exact ⟨h3, by simp [h4, h2]⟩

/-- C12 (amended): on a full snapshot `onRelationships` first removes every buddy
that `purple_blist_get_buddies()` lists, one removal call each (this empties the
roster when every buddy node is in that list), then issues one `RequestUserInfo`
listing exactly the snapshot's identities, and only then applies the entries, last
to first; the calls made while applying are buddy removals and additions only, so
the request is issued exactly once.  On an incremental snapshot the entries are
applied to the roster as it is, with no clearing and no request. -/
theorem full_snapshot_clears_requests_then_applies (w : World κ)
    (entries : List (SteamID × EFriendRelationship)) :
    (clear_list w).log
        = w.log ++ (purple_blist_get_buddies w.blist).map
            (fun b => Call.purple_blist_remove_buddy (some b))
    ∧ ((∀ b ∈ w.blist.buddies, b.ptr ∈ purple_blist_get_buddies w.blist) →
        (clear_list w).blist.buddies = [])
    ∧ onRelationships w false entries
        = entries.reverse.foldl apply_relationship
            ((clear_list w).call (.RequestUserInfo (entries.map Prod.fst)))
    ∧ (∃ applied : List Call,
        (onRelationships w false entries).log
          = (clear_list w).log ++ [Call.RequestUserInfo (entries.map Prod.fst)] ++ applied
        ∧ ∀ c ∈ applied, c.applies_entry = true)
    ∧ onRelationships w true entries = entries.reverse.foldl apply_relationship w
    ∧ ∃ applied : List Call,
        (onRelationships w true entries).log = w.log ++ applied
        ∧ ∀ c ∈ applied, c.applies_entry = true := by
  refine ⟨foldl_remove_log _ w, ?_, rfl, ?_, rfl, ?_⟩
  · intro hall
    rw [List.eq_nil_iff_forall_not_mem]
    intro b hb
    obtain ⟨h1, h2⟩ := foldl_remove_drops _ w b hb
    exact h2 (hall b h1)
  · obtain ⟨applied, hlog, hall⟩ := foldl_apply_relationship_log entries.reverse
      ((clear_list w).call (.RequestUserInfo (entries.map Prod.fst)))
    exact ⟨applied, hlog, hall⟩
  · exact foldl_apply_relationship_log entries.reverse w

theorem full_snapshot_clears_requests_then_applies_witness :
    (∀ b ∈ sample_chat.blist.buddies, b.ptr ∈ purple_blist_get_buddies sample_chat.blist)
    ∧ (clear_list sample_chat).blist.buddies = [] :=
  ⟨by decide,
    (full_snapshot_clears_requests_then_applies sample_chat []).2.1 (by decide)⟩

/-- C12 (counterexample): for the full snapshot with the single entry `(7, Friend)`
the user-info request is issued before the entry is applied, not after it. -/
theorem full_snapshot_requests_before_applying :
    (onRelationships sample_world false [(⟨7⟩, .Friend)]).log
        = sample_world.log ++ [.RequestUserInfo [⟨7⟩], .purple_blist_add_buddy "7" none]
    ∧ (onRelationships sample_world false [(⟨7⟩, .Friend)]).log
        ≠ sample_world.log ++ [.purple_blist_add_buddy "7" none, .RequestUserInfo [⟨7⟩]] := by
  decide

/-! ## The read offset and the expected frame length across reconnects -/

theorem prompts_in_append (a b : List Call) :
    prompts_in (a ++ b) = prompts_in a + prompts_in b := by
  simp [prompts_in, List.countP_append]

theorem quiet_refl (w : World κ) : w.quiet w := ⟨rfl, rfl, rfl⟩

theorem quiet_trans {a b c : World κ} (h1 : a.quiet b) (h2 : b.quiet c) : a.quiet c :=
  ⟨h2.1.trans h1.1, h2.2.1.trans h1.2.1, h2.2.2.trans h1.2.2⟩

theorem quiet_call (w : World κ) (c : Call) (hc : prompts_in [c] = 0) : w.quiet (w.call c) := by
  refine ⟨rfl, rfl, ?_⟩
  simp only [World.call, prompts_in_append, hc, Nat.add_zero]

theorem quiet_foldl {α : Type} (f : World κ → α → World κ) (hf : ∀ (w : World κ) (x : α), w.quiet (f w x))
    (l : List α) (w : World κ) : w.quiet (l.foldl f w) := by
  induction l generalizing w with
  | nil => exact quiet_refl w
  | cons x xs ih => exact quiet_trans (hf w x) (ih (f w x))

theorem quiet_blist_add_buddy (w : World κ) (name : String) (group : Option PurpleGroup) :
    w.quiet (w.blist_add_buddy name group) := by
  refine ⟨rfl, rfl, ?_⟩
  simp [World.blist_add_buddy, prompts_in_append, prompts_in]

theorem quiet_blist_remove_buddy (w : World κ) (buddy : Option Nat) :
    w.quiet (w.blist_remove_buddy buddy) := by
  refine ⟨rfl, rfl, ?_⟩
  simp [World.blist_remove_buddy, prompts_in_append, prompts_in]

theorem quiet_chat_add_user (w : World κ) (chat : Option Nat) (user : String) (arrival : Bool) :
    w.quiet (w.chat_add_user chat user arrival) := by
  refine ⟨rfl, rfl, ?_⟩
  simp [World.chat_add_user, prompts_in_append, prompts_in]

theorem quiet_apply_relationship (w : World κ) (entry : SteamID × EFriendRelationship) :
    w.quiet (apply_relationship w entry) := by
  obtain ⟨user, relationship⟩ := entry
  cases relationship with
  | None => exact quiet_blist_remove_buddy w _
  | Friend => exact quiet_blist_add_buddy w _ _
  | RequestRecipient => exact quiet_refl w
  | RequestInitiator => exact quiet_refl w
  | other code => exact quiet_refl w

theorem quiet_onUserInfo (w : World κ) (user : SteamID) (source : Option SteamID)
    (name : Option String) (state : Option EPersonaState) :
    w.quiet (onUserInfo w user source name state) := by
  refine ⟨?_, ?_, ?_⟩
  · simp only [onUserInfo]
    cases source <;> cases name <;> cases state <;>
      simp only [World.call, World.blist_add_buddy] <;> split_ifs <;> rfl
  · simp only [onUserInfo]
    cases source <;> cases name <;> cases state <;>
      simp only [World.call, World.blist_add_buddy] <;> split_ifs <;> rfl
  · simp only [onUserInfo]
    cases source <;> cases name <;> cases state <;>
      simp only [World.call, World.blist_add_buddy] <;> (try split_ifs) <;>
      simp [prompts_in_append, prompts_in]

theorem dispatch_quiet (w : World κ) (e : Event) (he : e.denies = false) :
    w.quiet (dispatch w e) := by
  cases e with
  | handshake =>
    simp only [dispatch, onHandshake]
    split
    · split <;> exact quiet_call w _ rfl
    · exact quiet_call w _ rfl
  | logOn result steamID =>
    cases result with
    | OK =>
      refine ⟨rfl, rfl, ?_⟩
      simp [dispatch, onLogOn, World.connection_set_display_name, World.connection_set_state,
        World.call, prompts_in_append, prompts_in]
    | AccountLogonDenied => simp [Event.denies] at he
    | InvalidPassword => exact quiet_call w _ rfl
    | ServiceUnavailable => exact quiet_call w _ rfl
    | TryAnotherCM => exact quiet_call w _ rfl
    | other code => exact quiet_call w _ rfl
  | sentry hash =>
    refine ⟨rfl, rfl, ?_⟩
    simp [dispatch, onSentry, prompts_in_append, prompts_in]
  | userInfo user source name state => exact quiet_onUserInfo w user source name state
  | chatEnter room response name members =>
    cases response with
    | Success =>
      simp only [dispatch, onChatEnter]
      refine quiet_trans ?_ (quiet_foldl _ (fun w x => quiet_chat_add_user w _ _ _) _ _)
      refine ⟨rfl, rfl, ?_⟩
      simp [prompts_in_append, prompts_in]
    | other code => exact quiet_refl w
  | chatStateChange room acted_by acted_on state_change =>
    simp only [dispatch, onChatStateChange]
    split_ifs
    · exact quiet_chat_add_user w _ _ _
    · refine ⟨rfl, rfl, ?_⟩
      simp [World.got_chat_left, prompts_in_append, prompts_in]
    · refine quiet_trans (b := w.chat_remove_user _ _) ?_ (quiet_blist_remove_buddy _ _)
      refine ⟨rfl, rfl, ?_⟩
      simp [World.chat_remove_user, prompts_in_append, prompts_in]
  | chatMsg room chatter message => exact quiet_call w _ rfl
  | privateMsg user message => exact quiet_call w _ rfl
  | typing user => exact quiet_call w _ rfl
  | relationships incremental entries =>
    simp only [dispatch, onRelationships]
    refine quiet_trans ?_ (quiet_foldl _ quiet_apply_relationship _ _)
    cases incremental with
    | true => exact quiet_refl w
    | false =>
      exact quiet_trans (quiet_foldl _ (fun w x => quiet_blist_remove_buddy w _) _ w)
        (quiet_call _ _ rfl)

theorem dispatch_denies (w : World κ) (e : Event) (he : e.denies = true) :
    (dispatch w e).steam = w.steam
    ∧ (dispatch w e).inputs = w.inputs.filter (fun i => i.1 ≠ w.steam.watcher)
    ∧ prompts_in (dispatch w e).log = prompts_in w.log + 1 := by
  cases e with
  | logOn result steamID =>
    cases result with
    | AccountLogonDenied =>
      refine ⟨rfl, rfl, ?_⟩
      simp [dispatch, onLogOn, World.input_remove, World.close, World.call, prompts_in_append,
        prompts_in]
    | _ => simp [Event.denies] at he
  | _ => simp [Event.denies] at he

theorem events_quiet (events : List Event) (w : World κ)
    (h : events.countP Event.denies = 0) : w.quiet (events.foldl dispatch w) := by
  induction events generalizing w with
  | nil => exact quiet_refl w
  | cons e es ih =>
    have he : e.denies = false := by
      cases hd : e.denies with
      | false => rfl
      | true => simp [List.countP_cons, hd] at h
    have hes : es.countP Event.denies = 0 := by
      simpa [List.countP_cons, he] using h
    exact quiet_trans (dispatch_quiet w e he) (ih (dispatch w e) hes)

theorem events_effect (events : List Event) (w : World κ)
    (h : events.countP Event.denies ≤ 1) :
    (events.foldl dispatch w).steam = w.steam
    ∧ ((w.quiet (events.foldl dispatch w))
      ∨ ((events.foldl dispatch w).inputs = w.inputs.filter (fun i => i.1 ≠ w.steam.watcher)
        ∧ prompts_in (events.foldl dispatch w).log = prompts_in w.log + 1)) := by
  induction events generalizing w with
  | nil => exact ⟨rfl, Or.inl (quiet_refl w)⟩
  | cons e es ih =>
    cases hd : e.denies with
    | false =>
      have hq := dispatch_quiet w e hd
      have hes : es.countP Event.denies ≤ 1 := by
        simpa [List.countP_cons, hd] using h
      obtain ⟨h1, h2⟩ := ih (dispatch w e) hes
      refine ⟨h1.trans hq.1, ?_⟩
      rcases h2 with h2 | h2
      · exact Or.inl (quiet_trans hq h2)
      · refine Or.inr ⟨?_, ?_⟩
        · simp only [List.foldl]
          rw [h2.1, hq.2.1, hq.1]
        · simp only [List.foldl]
          rw [h2.2, hq.2.2]
    | true =>
      have hes : es.countP Event.denies = 0 := by
        simp only [List.countP_cons, hd, if_true] at h
        omega
      obtain ⟨d1, d2, d3⟩ := dispatch_denies w e hd
      have hq := events_quiet es (dispatch w e) hes
      refine ⟨hq.1.trans d1, Or.inr ⟨?_, ?_⟩⟩
      · simp only [List.foldl]
        rw [hq.2.1, d2]
      · simp only [List.foldl]
        rw [hq.2.2, d3]

theorem step_connect_inv (P : Protocol κ) (l after : Loop κ) (source : Int) (h : l.inv)
    (hs : l.step P (.connect source) = some after) : after.inv := by
  obtain ⟨ha, hb, hc, hd, he, hf⟩ := h
  simp only [Loop.step] at hs
  split_ifs at hs with h0
  by_cases hsrc : source = -1
  · simp [proxy_connected, hsrc] at hs
  · simp only [proxy_connected, if_neg hsrc, Option.some.injEq] at hs
    subst hs
    obtain ⟨hoff, hin⟩ := hf (by omega)
    refine ⟨?_, ?_, ?_, ?_, ?_, ?_⟩
    · show l.world.steam.read_offset ≤ _
      rw [hoff]
      exact Nat.zero_le _
    · intro n hn
      simp only [Option.some.injEq] at hn
      subst hn
      exact resize_length _ _
    · intro _ hnone
      cases hnone
    · refine Or.inr ⟨source, ?_⟩
      show l.world.inputs ++ _ = _
      rw [hin]
      rfl
    · show l.connecting - 1 + l.prompts ≤ 1
      omega
    · intro hpos
      exfalso
      have : l.connecting - 1 + l.prompts = 0 := by omega
      change 0 < l.connecting - 1 + l.prompts at hpos
      omega

theorem step_token_inv (P : Protocol κ) (l after : Loop κ) (endpoint : Nat) (token : String)
    (h : l.inv) (hs : l.step P (.guard_token endpoint token) = some after) : after.inv := by
  obtain ⟨ha, hb, hc, hd, he, hf⟩ := h
  simp only [Loop.step] at hs
  split_ifs at hs with h0
  simp only [Option.some.injEq] at hs
  subst hs
  obtain ⟨hoff, hin⟩ := hf (by omega)
  refine ⟨ha, hb, hc, hd, ?_, fun _ => ⟨hoff, hin⟩⟩
  show l.connecting + 1 + (l.prompts - 1) ≤ 1
  omega

theorem frame_complete_effect (P : Protocol κ) (hP : P.single_denial) (w : World κ) :
    (frame_complete P.on_readable w).steam.read_offset = 0
    ∧ (frame_complete P.on_readable w).steam.read_buffer.length
        = (P.readable w.steam.client.session w.steam.read_buffer).2.2
    ∧ (frame_complete P.on_readable w).steam.watcher = w.steam.watcher
    ∧ (((frame_complete P.on_readable w).inputs = w.inputs
        ∧ prompts_in (frame_complete P.on_readable w).log = prompts_in w.log)
      ∨ ((frame_complete P.on_readable w).inputs
          = w.inputs.filter (fun i => i.1 ≠ w.steam.watcher)
        ∧ prompts_in (frame_complete P.on_readable w).log = prompts_in w.log + 1)) := by
  have hbase : prompts_in
      ((w.call (.readable w.steam.read_buffer)).with_session
        (P.readable w.steam.client.session w.steam.read_buffer).1).log = prompts_in w.log := by
    simp [World.with_session, World.call, prompts_in_append, prompts_in]
  obtain ⟨hsteam, heff⟩ := events_effect
    (P.readable w.steam.client.session w.steam.read_buffer).2.1
    ((w.call (.readable w.steam.read_buffer)).with_session
      (P.readable w.steam.client.session w.steam.read_buffer).1)
    (hP _ _)
  refine ⟨rfl, resize_length _ _, ?_, ?_⟩
  · exact congrArg (fun st => st.watcher) hsteam
  · rcases heff with hq | hdeny
    · exact Or.inl ⟨hq.2.1, hq.2.2.trans hbase⟩
    · exact Or.inr ⟨hdeny.1, hdeny.2.trans (by rw [hbase])⟩

theorem step_read_inv (P : Protocol κ) (hP : P.single_denial) (l after : Loop κ)
    (data : List Byte) (h : l.inv) (hs : l.step P (.read data) = some after) : after.inv := by
  obtain ⟨ha, hb, hc, hd, he, hf⟩ := h
  simp only [Loop.step] at hs
  split_ifs at hs with hin hzero hlong hfull
  all_goals
    have hidle : l.connecting + l.prompts = 0 := by
      by_contra hne
      exact hin (hf (by omega)).2
    have hne : data ≠ [] := fun h0 => hzero (by simp [h0])
    have hfit : l.world.steam.read_offset + data.length ≤ l.world.steam.read_buffer.length := by
      omega
    have hlen := store_length l.world data hfit
    have hoff : (l.world.store data).steam.read_offset
        = l.world.steam.read_offset + data.length := rfl
  · rw [readWatcher_last P.on_readable l.world data hne (by omega)] at hs
    simp only [Option.some.injEq] at hs
    subst hs
    obtain ⟨e1, e2, e3, e4⟩ := frame_complete_effect P hP (l.world.store data)
    have hin1 : (l.world.store data).inputs = l.world.inputs := rfl
    have hlog1 : (l.world.store data).log = l.world.log := rfl
    have hw1 : (l.world.store data).steam.watcher = l.world.steam.watcher := rfl
    rw [hin1, hlog1] at e4
    rw [hw1] at e3 e4
    have hfilter : l.world.inputs.filter (fun i => i.1 ≠ l.world.steam.watcher) = [] := by
      rcases hd with hd | ⟨fd, hd⟩
      · exact absurd hd hin
      · simp [hd]
    refine ⟨?_, ?_, ?_, ?_, ?_, ?_⟩
    · show (frame_complete P.on_readable (l.world.store data)).steam.read_offset ≤ _
      rw [e1]
      exact Nat.zero_le _
    · intro n hn
      simp only [Option.some.injEq] at hn
      subst hn
      exact e2
    · intro _ hnone
      cases hnone
    · show (frame_complete P.on_readable (l.world.store data)).inputs = [] ∨ ∃ fd,
        (frame_complete P.on_readable (l.world.store data)).inputs
          = [((frame_complete P.on_readable (l.world.store data)).steam.watcher, fd)]
      rcases e4 with e4 | e4
      · rw [e4.1, e3]
        exact hd
      · rw [e4.1, hfilter]
        exact Or.inl rfl
    · show l.connecting + (l.prompts
        + (prompts_in (frame_complete P.on_readable (l.world.store data)).log
          - prompts_in l.world.log)) ≤ 1
      rcases e4 with e4 | e4 <;> rw [e4.2] <;> omega
    · intro hpos
      change 0 < l.connecting + (l.prompts
        + (prompts_in (frame_complete P.on_readable (l.world.store data)).log
          - prompts_in l.world.log)) at hpos
      refine ⟨e1, ?_⟩
      show (frame_complete P.on_readable (l.world.store data)).inputs = []
      rcases e4 with e4 | e4
      · rw [e4.2] at hpos
        omega
      · rw [e4.1, hfilter]
  · rw [readWatcher_stores P.on_readable l.world data hne (by omega)] at hs
    simp only [Option.some.injEq] at hs
    subst hs
    refine ⟨?_, ?_, hc, hd, ?_, ?_⟩
    · show (l.world.store data).steam.read_offset ≤ (l.world.store data).steam.read_buffer.length
      omega
    · intro n hn
      show (l.world.store data).steam.read_buffer.length = n
      rw [hlen]
      exact hb n hn
    · show l.connecting + (l.prompts + (prompts_in l.world.log - prompts_in l.world.log)) ≤ 1
      omega
    · intro hpos
      exfalso
      change 0 < l.connecting + (l.prompts + (prompts_in l.world.log - prompts_in l.world.log))
        at hpos
      omega

theorem login_inv (session : κ) (account : PurpleAccount) (pc : PurpleConnection)
    (blist : BuddyList) (chats : Chats) (endpoint : Nat) :
    (Loop.login session account pc blist chats endpoint).inv := by
  refine ⟨Nat.le_refl _, ?_, ?_, Or.inl rfl, Nat.le_refl _, fun _ => ⟨rfl, rfl⟩⟩
  · intro n hn
    cases hn
  · intro hin
    exact absurd rfl hin

theorem run_inv (P : Protocol κ) (hP : P.single_denial) (events : List LoopEvent)
    (l after : Loop κ) (h : l.inv) (hrun : Loop.run P l events = some after) : after.inv := by
  induction events generalizing l with
  | nil =>
    simp only [Loop.run, Option.some.injEq] at hrun
    subst hrun
    exact h
  | cons e es ih =>
    simp only [Loop.run] at hrun
    cases hstep : l.step P e with
    | none => rw [hstep] at hrun; cases hrun
    | some l1 =>
      rw [hstep] at hrun
      refine ih l1 ?_ hrun
      cases e with
      | connect source => exact step_connect_inv P l l1 source h hstep
      | read data => exact step_read_inv P hP l l1 data h hstep
      | guard_token endpoint token => exact step_token_inv P l l1 endpoint token h hstep

/-- The reach of the missing offset reset in the connection callback: in every state
that the event loop reaches from `steam_login` through connection callbacks, reads
of between 1 and the outstanding number of bytes, and Steam Guard codes followed by
their reconnect, for a protocol session that reports at most one
`AccountLogonDenied` per frame, the read offset does not exceed the size of the read
buffer; the buffer has the length that the session returned last from `connected()`
or `readable()`, in particular whenever a read begins; and every such read is
carried out by the handler without a failed assertion. -/
theorem read_offset_within_expected_buffer (P : Protocol κ) (hP : P.single_denial)
    (session : κ) (account : PurpleAccount) (pc : PurpleConnection) (blist : BuddyList)
    (chats : Chats) (endpoint : Nat) (events : List LoopEvent) (l : Loop κ)
    (hrun : Loop.run P (Loop.login session account pc blist chats endpoint) events = some l) :
    l.world.steam.read_offset ≤ l.world.steam.read_buffer.length
    ∧ (∀ n, l.expected = some n → l.world.steam.read_buffer.length = n)
    ∧ (∀ data after, l.step P (.read data) = some after →
        l.expected = some l.world.steam.read_buffer.length)
    ∧ ∀ data, l.world.inputs ≠ [] → 1 ≤ data.length →
        data.length ≤ l.world.steam.read_buffer.length - l.world.steam.read_offset →
        ∃ after, l.step P (.read data) = some after := by
  obtain ⟨ha, hb, hc, hd, he, hf⟩ :=
    run_inv P hP events _ l (login_inv session account pc blist chats endpoint) hrun
  refine ⟨ha, hb, ?_, ?_⟩
  · intro data after hs
    have hin : l.world.inputs ≠ [] := by
      intro h0
      simp [Loop.step, h0] at hs
    cases hexp : l.expected with
    | none => exact absurd hexp (hc hin)
    | some n => rw [hb n hexp]
  · intro data hin h1 h2
    have hne : data ≠ [] := fun h0 => by simp [h0] at h1
    simp only [Loop.step, if_neg hin, if_neg (show ¬ data.length = 0 by omega),
      if_neg (show ¬ l.world.steam.read_buffer.length - l.world.steam.read_offset
        < data.length by omega)]
    by_cases hfull : l.world.steam.read_offset + data.length = l.world.steam.read_buffer.length
    · rw [readWatcher_last P.on_readable l.world data hne hfull]
      exact ⟨_, rfl⟩
    · rw [readWatcher_stores P.on_readable l.world data hne (by omega)]
      exact ⟨_, rfl⟩

theorem sample_protocol_single_denial : sample_protocol.single_denial := by
  intro s frame
  simp only [sample_protocol]
  split_ifs <;> decide

theorem read_offset_within_expected_buffer_witness :
    sample_protocol.single_denial
    ∧ ∃ l, Loop.run sample_protocol sample_loop
          [.connect 5, .read [63, 0], .read [1, 2], .guard_token 1 "K7XQ2", .connect 6,
            .read [9]] = some l
        ∧ l.world.steam.read_offset ≤ l.world.steam.read_buffer.length :=
  have hsome : (Loop.run sample_protocol sample_loop
      [.connect 5, .read [63, 0], .read [1, 2], .guard_token 1 "K7XQ2", .connect 6,
        .read [9]]).isSome = true := by rfl
  ⟨sample_protocol_single_denial, _, (Option.some_get hsome).symm,
    (read_offset_within_expected_buffer sample_protocol sample_protocol_single_denial ()
      sample_account ⟨.CONNECTING, none⟩ ⟨[], [], [], 0⟩ ⟨[], [], 0⟩ 0 _ _
      (Option.some_get hsome).symm).1⟩

/-- C11 (defect in the code): the connection callback resizes the read buffer to the
length returned by `connected()` without the `read_offset = 0` that the read watcher
makes before its own resize.  A frame that denies the logon twice opens two Steam
Guard prompts; a code typed into each starts two connections.  After the first of
them is made and two of the three bytes of its frame are read, the offset is 2 in a
buffer of length 3; the second connection callback then resizes the buffer to length
1 and leaves the offset at 2, beyond the end of the buffer, with the read watchers of
both sockets registered. -/
theorem second_reconnect_leaves_offset_beyond_buffer :
    ((Loop.run sample_protocol_two_denials sample_loop_counting sample_two_reconnects).map
        fun l => (l.world.steam.read_offset, l.world.steam.read_buffer.length, l.connecting))
      = some (2, 3, 1)
    ∧ ((Loop.run sample_protocol_two_denials sample_loop_counting
          (sample_two_reconnects ++ [.connect 7])).map
        fun l => (l.world.steam.read_offset, l.world.steam.read_buffer.length, l.expected,
          l.world.inputs.map Prod.snd))
      = some (2, 1, some 1, [6, 7])
    ∧ ¬ ∀ l, Loop.run sample_protocol_two_denials sample_loop_counting
          (sample_two_reconnects ++ [.connect 7]) = some l →
        l.world.steam.read_offset ≤ l.world.steam.read_buffer.length := by
  refine ⟨by decide, by decide, ?_⟩
  intro h
  have hlt : ((Loop.run sample_protocol_two_denials sample_loop_counting
      (sample_two_reconnects ++ [.connect 7])).map
        fun l => decide (l.world.steam.read_offset ≤ l.world.steam.read_buffer.length))
      = some false := by decide
  cases hrun : Loop.run sample_protocol_two_denials sample_loop_counting
      (sample_two_reconnects ++ [.connect 7]) with
  | none =>
    rw [hrun] at hlt
    simp at hlt
  | some l =>
    rw [hrun] at hlt
    have hle := h l hrun
    simp at hlt
    omega

end SteamPP
